import Mathlib

/-!
The allocation engine of fly-scheduler, `main.go`.

A shallow embedding of the flight-slot generator (`initializeFlightSchedules`),
the occupancy rule (`isSpotOccupied`) and the greedy assignment pass
(`calculateFlightSchedules`), followed by the properties proved about them.

Modelling conventions
* Go slices are lists; a nil slice is the empty list.
* Go pointers to crew members are `Option` values; nil is `none`.
* `map[string]bool` values that only ever store `true` are lists of keys
  without repetition, so that `len` is the length of the list.
* The package-level variables read by the engine (`dates`, `numFlightsByDate`,
  `fullCrew`, `piCrew`, `pcCrew`, `feCrew`, `ceCrew`) are the fields of `Globals`.
* A run ends with a schedule, with the error of `time.Parse`, or with the
  run-time panic of a write into a nil map.
* The Go type `int` is 64 bits wide; the one sum that can leave its range, the
  bound of the slot generator, is wrapped by `wrapInt`.
-/

namespace FlyScheduler

/-! ## Constants and lookup tables -/

def NUMBER_OF_MAINTENANCE_FLIGHTS : Int := 1

def NUMBER_OF_TRAINING_FLIGHTS : Int := 3

/-- The map `timesByIndex`; a missing key reads as the empty string. -/
def timesByIndex (i : Nat) : String :=
  match i with
  | 0 => "0900"
  | 1 => "0800"
  | 2 => "1000"
  | 3 => "1100"
  | 4 => "1200"
  | 5 => "1200"
  | 6 => "1700"
  | _ => ""

/-- The map `flightTypesByIndex`; a missing key reads as the empty string. -/
def flightTypesByIndex (i : Nat) : String :=
  match i with
  | 0 => "MAINTENANCE"
  | 1 => "TRAINING"
  | 2 => "TRAINING"
  | 3 => "TRAINING"
  | 4 => "NORMAL"
  | 5 => "NORMAL"
  | 6 => "NORMAL"
  | _ => ""

/-! ## Data model -/

/-- The struct `CrewAvailability`; the availability map is an association list
read with `List.lookup`. -/
structure CrewAvailability where
  FirstName : String
  LastName : String
  Rank : String
  Status : String
  Availabilty : List (String × Bool)
  deriving DecidableEq, Repr

/-- The struct `CrewMember`. -/
structure CrewMember where
  FirstName : String
  LastName : String
  Rank : String
  Status : String
  deriving DecidableEq, Repr

/-- The struct `Flight`; the field `Type` is written `Typ`. -/
structure Flight where
  Typ : String
  Date : String
  Time : String
  PC : Option CrewMember
  PIs : List CrewMember
  FE : Option CrewMember
  CEs : List CrewMember
  deriving DecidableEq, Repr

/-- The package-level variables the engine reads. -/
structure Globals where
  dates : List String
  numFlightsByDate : List (String × Int)
  fullCrew : List String
  piCrew : List String
  pcCrew : List String
  feCrew : List String
  ceCrew : List String
  deriving DecidableEq, Repr

/-- How a run can end without a schedule: the error returned by `time.Parse`
for a date string, or the panic of an assignment to an entry of a nil map, or
the panic of an index out of range. -/
inductive Failure where
  | parseError (date : String)
  | nilMapPanic
  | indexPanic
  deriving DecidableEq, Repr

/-- Equality of outcomes is decidable, so that runs on concrete inputs can be
evaluated. -/
instance instDecidableEqExcept {ε α : Type} [DecidableEq ε] [DecidableEq α] :
    DecidableEq (Except ε α)
  | .ok a, .ok b => if h : a = b then isTrue (by rw [h]) else isFalse (fun hc => h (by injection hc))
  | .error a, .error b =>
    if h : a = b then isTrue (by rw [h]) else isFalse (fun hc => h (by injection hc))
  | .ok _, .error _ => isFalse (fun hc => by cases hc)
  | .error _, .ok _ => isFalse (fun hc => by cases hc)

/-! ## Dates: `time.Parse` with layout `1/2/2006`, `Format` with `Jan 02 06` -/

/-- A parsed calendar date. -/
structure Date where
  month : Nat
  day : Nat
  year : Nat
  deriving DecidableEq, Repr

def isDigit (c : Char) : Bool := decide (48 ≤ c.toNat) && decide (c.toNat ≤ 57)

def digitVal (c : Char) : Nat := c.toNat - 48

/-- The helper `getnum(s, false)` of package time: one or two leading digits. -/
def getnum : List Char → Option (Nat × List Char)
  | [] => none
  | [c] => if isDigit c then some (digitVal c, []) else none
  | c :: d :: rest =>
    if isDigit c then
      if isDigit d then some (digitVal c * 10 + digitVal d, rest)
      else some (digitVal c, d :: rest)
    else none

/-- The four-digit year of layout element `2006`. -/
def getYear : List Char → Option (Nat × List Char)
  | a :: b :: c :: d :: rest =>
    if isDigit a && isDigit b && isDigit c && isDigit d then
      some (digitVal a * 1000 + digitVal b * 100 + digitVal c * 10 + digitVal d, rest)
    else none
  | _ => none

/-- The literal `/` between two layout elements. -/
def skipSlash : List Char → Option (List Char)
  | c :: rest => if c = '/' then some rest else none
  | [] => none

def isLeap (year : Nat) : Bool :=
  year % 4 == 0 && (year % 100 != 0 || year % 400 == 0)

/-- The function `daysIn` of package time. -/
def daysIn (month year : Nat) : Nat :=
  match month with
  | 2 => if isLeap year then 29 else 28
  | 4 => 30
  | 6 => 30
  | 9 => 30
  | 11 => 30
  | _ => 31

/-- The call `time.Parse(INPUT_DATE_FORMAT, date)`: month, `/`, day, `/`,
four-digit year, nothing after it; the month is in 1..12 and the day exists in
that month. `none` is the returned error. -/
def parseInputDate (date : String) : Option Date :=
  match getnum date.toList with
  | none => none
  | some (month, v1) =>
    if month = 0 ∨ 12 < month then none else
    match skipSlash v1 with
    | none => none
    | some v2 =>
      match getnum v2 with
      | none => none
      | some (day, v3) =>
        match skipSlash v3 with
        | none => none
        | some v4 =>
          match getYear v4 with
          | none => none
          | some (year, v5) =>
            if v5 ≠ [] then none
            else if day < 1 ∨ daysIn month year < day then none
            else some ⟨month, day, year⟩

/-- The three-letter month name written by layout element `Jan`. -/
def monthAbbrev (month : Nat) : String :=
  match month with
  | 1 => "Jan"
  | 2 => "Feb"
  | 3 => "Mar"
  | 4 => "Apr"
  | 5 => "May"
  | 6 => "Jun"
  | 7 => "Jul"
  | 8 => "Aug"
  | 9 => "Sep"
  | 10 => "Oct"
  | 11 => "Nov"
  | _ => "Dec"

/-- Two decimal digits, zero padded. -/
def twoDigits (n : Nat) : String :=
  String.mk [Char.ofNat (48 + n / 10 % 10), Char.ofNat (48 + n % 10)]

/-- The call `inputDate.Format(FULL_DATE_FORMAT)` with layout `Jan 02 06`. -/
def formatFullDate (d : Date) : String :=
  monthAbbrev d.month ++ " " ++ twoDigits d.day ++ " " ++ twoDigits (d.year % 100)

/-- The call `fmt.Sprintf("%d/%d/%d", month, day, year)`. -/
def formatInputDate (d : Date) : String :=
  toString d.month ++ "/" ++ toString d.day ++ "/" ++ toString d.year

/-! ## The flight slot generator -/

/-- The read `numFlightsByDate[key]`; a missing key reads as 0. -/
def numFlights (g : Globals) (key : String) : Int :=
  (g.numFlightsByDate.lookup key).getD 0

/-- The literal `&Flight{Type: flightTypesByIndex[i], Date: fullDate, Time: timesByIndex[i]}`. -/
def newFlight (fullDate : String) (i : Nat) : Flight :=
  { Typ := flightTypesByIndex i, Date := fullDate, Time := timesByIndex i,
    PC := none, PIs := [], FE := none, CEs := [] }

/-- The value of an arithmetic result of Go type `int`, 64 bits wide: the
mathematical result wrapped into the range from -2^63 to 2^63 - 1. -/
def wrapInt (x : Int) : Int :=
  (x + 9223372036854775808) % 18446744073709551616 - 9223372036854775808

/-- The bound `flights+NUMBER_OF_MAINTENANCE_FLIGHTS+NUMBER_OF_TRAINING_FLIGHTS`
of the inner loop of `initializeFlightSchedules`, two additions of type `int`. -/
def slotCount (flights : Int) : Int :=
  wrapInt (wrapInt (flights + NUMBER_OF_MAINTENANCE_FLIGHTS) + NUMBER_OF_TRAINING_FLIGHTS)

/-- The inner loop of `initializeFlightSchedules`: the slots appended for one
date, for `i` from 0 while `i < flights+1+3`; no slot when the bound is not
positive. -/
def dayFlights (fullDate : String) (flights : Int) : List Flight :=
  (List.range (slotCount flights).toNat).map (newFlight fullDate)

/-- The loop over `dates` of `initializeFlightSchedules`, with the slice built
so far; it returns at the first date that does not parse. -/
def initializeLoop (g : Globals) : List String → List Flight → Except Failure (List Flight)
  | [], acc => .ok acc
  | date :: rest, acc =>
    match parseInputDate date with
    | none => .error (.parseError date)
    | some inputDate =>
      initializeLoop g rest
        (acc ++ dayFlights (formatFullDate inputDate) (numFlights g (formatInputDate inputDate)))

/-- The function `initializeFlightSchedules`. -/
def initializeFlightSchedules (g : Globals) : Except Failure (List Flight) :=
  initializeLoop g g.dates []

/-! ## The occupancy rule -/

set_option linter.unusedVariables false in
/-- The function `isSpotOccupied`. The slot is read at `flightIndex`; the
inner switches are on the slot's own type, the parameter `flightType` is not
read. A list test `x != nil && len(x) == k` with `k ≥ 1` is `len(x) == k`. -/
def isSpotOccupied (flightSchedules : List Flight) (crewStatus flightType : String)
    (flightIndex : Nat) : Except Failure Bool :=
  match flightSchedules[flightIndex]? with
  | none => .error .indexPanic
  | some flight =>
    if crewStatus = "PC" then .ok flight.PC.isSome
    else if crewStatus = "PI" then
      if flight.Typ = "MAINTENANCE" ∨ flight.Typ = "NORMAL" then
        .ok (flight.PIs.length == 1)
      else if flight.Typ = "TRAINING" then
        if flightIndex % 2 = 0 then .ok (flight.PIs.length == 2)
        else .ok (flight.PIs.length == 1)
      else .ok false
    else if crewStatus = "FE" then .ok flight.FE.isSome
    else if crewStatus = "CE" then
      if flight.Typ = "MAINTENANCE" then .ok true
      else if flight.Typ = "TRAINING" then
        if flightIndex % 2 = 0 then .ok (flight.CEs.length == 1)
        else .ok (flight.CEs.length == 3)
      else if flight.Typ = "NORMAL" then .ok (flight.CEs.length == 1)
      else .ok false
    else .ok false

/-! ## The rotation bookkeeping -/

/-- The map `crewHasAFlightThisWeek`, from status to the set of crew names.
The code only ever stores the keys `PI`, `PC`, `FE` and `CE`; `none` is a
missing key, whose value reads as the nil map. -/
structure WeekMap where
  PI : Option (List String)
  PC : Option (List String)
  FE : Option (List String)
  CE : Option (List String)
  deriving DecidableEq, Repr

/-- The initial value of `crewHasAFlightThisWeek`: four empty sets. -/
def WeekMap.initial : WeekMap :=
  { PI := some [], PC := some [], FE := some [], CE := some [] }

/-- The read `crewHasAFlightThisWeek[status]`. -/
def WeekMap.get (w : WeekMap) (status : String) : Option (List String) :=
  if status = "PI" then w.PI
  else if status = "PC" then w.PC
  else if status = "FE" then w.FE
  else if status = "CE" then w.CE
  else none

/-- The value `len(crewHasAFlightThisWeek)`: the number of keys. -/
def WeekMap.len (w : WeekMap) : Nat :=
  (if w.PI.isSome then 1 else 0) + (if w.PC.isSome then 1 else 0)
    + (if w.FE.isSome then 1 else 0) + (if w.CE.isSome then 1 else 0)

/-- The length of the set stored under a key, 0 for a missing key. -/
def setLen (s : Option (List String)) : Nat := (s.getD []).length

/-- The write `m[name] = true` into a set of names. -/
def setInsert (s : List String) (name : String) : List String :=
  if name ∈ s then s else s ++ [name]

/-- The write `crewHasAFlightThisWeek[status][name] = true`; it panics when
the key `status` is missing, the inner map being nil. -/
def WeekMap.mark (w : WeekMap) (status name : String) : Except Failure WeekMap :=
  match w.get status with
  | none => .error .nilMapPanic
  | some s =>
    if status = "PI" then .ok { w with PI := some (setInsert s name) }
    else if status = "PC" then .ok { w with PC := some (setInsert s name) }
    else if status = "FE" then .ok { w with FE := some (setInsert s name) }
    else .ok { w with CE := some (setInsert s name) }

/-- The block `if len(fullCrew) == len(crewHasAFlightThisWeek)`: every key of
the outer map is deleted. -/
def clearWhenEveryoneFlew (g : Globals) (w : WeekMap) : WeekMap :=
  if g.fullCrew.length = w.len then { PI := none, PC := none, FE := none, CE := none }
  else w

/-- The test `0.9*float64(roster) >= float64(len(set))`. For sizes below 2^49
the float64 product is on the same side of the integer `len(set)` as the exact
product, so the test is `9 * roster ≥ 10 * len(set)`. -/
def ninetyPercent (roster : Nat) (s : Option (List String)) : Bool :=
  decide (10 * setLen s ≤ 9 * roster)

/-- One block `if 0.9*float64(len(roster)) >= float64(len(m[k])) { m[k] = make(...) }`
seen from the key `k`: the new value stored under the key. -/
def resetSet (roster : Nat) (s : Option (List String)) : Option (List String) :=
  if ninetyPercent roster s then some [] else s

/-- The four blocks that replace a role's set by a fresh empty map, for PI, PC,
FE and CE. Each block reads and writes its own key only, so the four are
written key by key. -/
def ninetyPercentResets (g : Globals) (w : WeekMap) : WeekMap :=
  { PI := resetSet g.piCrew.length w.PI, PC := resetSet g.pcCrew.length w.PC,
    FE := resetSet g.feCrew.length w.FE, CE := resetSet g.ceCrew.length w.CE }

/-! ## The allocation engine -/

/-- The local variables of `calculateFlightSchedules` while the loops run. -/
structure AllocState where
  Flights : List Flight
  crewHasFlight : List String
  currentFlightDate : String
  crewHasAFlightThisWeek : WeekMap
  deriving DecidableEq, Repr

/-- The value `fmt.Sprintf("%s %s", crew.FirstName, crew.LastName)`. -/
def crewName (crew : CrewAvailability) : String :=
  crew.FirstName ++ " " ++ crew.LastName

/-- The literal `&CrewMember{...}` built from a crew record. -/
def newCrewMember (crew : CrewAvailability) : CrewMember :=
  { FirstName := crew.FirstName, LastName := crew.LastName, Rank := crew.Rank,
    Status := crew.Status }

/-- The condition of the `if` that opens the body of the crew loop. -/
def eligible (st : AllocState) (date : String) (crew : CrewAvailability) : Bool :=
  (crew.Availabilty.lookup date == some true)
    && !(st.crewHasFlight.contains (crewName crew))
    && !(((st.crewHasAFlightThisWeek.get crew.Status).getD []).contains (crewName crew))

/-- The `switch crew.Status` that writes the crew member into the slot. -/
def placeCrew (flight : Flight) (crew : CrewAvailability) : Flight :=
  if crew.Status = "PC" then { flight with PC := some (newCrewMember crew) }
  else if crew.Status = "PI" then { flight with PIs := flight.PIs ++ [newCrewMember crew] }
  else if crew.Status = "FE" then { flight with FE := some (newCrewMember crew) }
  else if crew.Status = "CE" then { flight with CEs := flight.CEs ++ [newCrewMember crew] }
  else flight

/-- The statements run once the spot is found free: the slot is written, the
crew member is marked as flown today and this week, the reset checks run. -/
def assignCrew (g : Globals) (i : Nat) (st : AllocState) (crew : CrewAvailability) :
    Except Failure AllocState :=
  match st.Flights[i]? with
  | none => .error .indexPanic
  | some flight =>
    match st.crewHasAFlightThisWeek.mark crew.Status (crewName crew) with
    | .error e => .error e
    | .ok w =>
      .ok { st with
            Flights := st.Flights.set i (placeCrew flight crew)
            crewHasFlight := setInsert st.crewHasFlight (crewName crew)
            crewHasAFlightThisWeek := ninetyPercentResets g (clearWhenEveryoneFlew g w) }

/-- The body of the loop over `s.CrewAvailability` for slot `i`; `flight` is
the slot the range variable points to, `Flights[i]`. -/
def considerCrew (g : Globals) (i : Nat) (st : AllocState) (crew : CrewAvailability) :
    Except Failure AllocState :=
  match st.Flights[i]? with
  | none => .error .indexPanic
  | some flight =>
    if eligible st flight.Date crew then
      match isSpotOccupied st.Flights crew.Status flight.Typ i with
      | .error e => .error e
      | .ok spotOccupied =>
        if spotOccupied then .ok st else assignCrew g i st crew
    else .ok st

/-- The loop over `s.CrewAvailability` for slot `i`. -/
def crewLoop (g : Globals) (i : Nat) :
    List CrewAvailability → AllocState → Except Failure AllocState
  | [], st => .ok st
  | crew :: rest, st =>
    match considerCrew g i st crew with
    | .error e => .error e
    | .ok st1 => crewLoop g i rest st1

/-- The body of the loop over the slots: the daily set is emptied when the
date changes, then the crew list is walked. -/
def processFlight (g : Globals) (s : List CrewAvailability) (i : Nat) (st : AllocState) :
    Except Failure AllocState :=
  match st.Flights[i]? with
  | none => .error .indexPanic
  | some flight =>
    let st1 := if st.currentFlightDate ≠ flight.Date then { st with crewHasFlight := [] } else st
    crewLoop g i s { st1 with currentFlightDate := flight.Date }

/-- The loop over the slots, from index `i`, for `n` more slots. -/
def flightLoop (g : Globals) (s : List CrewAvailability) :
    Nat → Nat → AllocState → Except Failure AllocState
  | _, 0, st => .ok st
  | i, n + 1, st =>
    match processFlight g s i st with
    | .error e => .error e
    | .ok st1 => flightLoop g s (i + 1) n st1

/-- The method `calculateFlightSchedules` of a payload with crew list `s`. -/
def calculateFlightSchedules (g : Globals) (s : List CrewAvailability) :
    Except Failure (List Flight) :=
  match initializeFlightSchedules g with
  | .error e => .error e
  | .ok flights =>
    match flightLoop g s 0 flights.length
        { Flights := flights, crewHasFlight := [], currentFlightDate := "",
          crewHasAFlightThisWeek := WeekMap.initial } with
    | .error e => .error e
    | .ok st => .ok st.Flights

/-! ## Definitions used to state the properties -/

/-- The state with which the crew loop of a slot starts: the daily set is
emptied when the date changes, and the current date is the slot's. -/
def resetDay (st : AllocState) (flight : Flight) : AllocState :=
  { (if st.currentFlightDate ≠ flight.Date then { st with crewHasFlight := [] } else st) with
    currentFlightDate := flight.Date }

/-- The state in which `calculateFlightSchedules` enters the loop over the slots. -/
def initialState (flights : List Flight) : AllocState :=
  { Flights := flights, crewHasFlight := [], currentFlightDate := "",
    crewHasAFlightThisWeek := WeekMap.initial }

/-- The slots generated for a parsed date. -/
def dateBlock (g : Globals) (d : Date) : List Flight :=
  dayFlights (formatFullDate d) (numFlights g (formatInputDate d))

/-- The slots the specification lists for one day with `n` normal flights. -/
def specDayBlock (label : String) (n : Nat) : List Flight :=
  [ { Typ := "MAINTENANCE", Date := label, Time := "0900", PC := none, PIs := [], FE := none,
      CEs := [] },
    { Typ := "TRAINING", Date := label, Time := "0800", PC := none, PIs := [], FE := none,
      CEs := [] },
    { Typ := "TRAINING", Date := label, Time := "1000", PC := none, PIs := [], FE := none,
      CEs := [] },
    { Typ := "TRAINING", Date := label, Time := "1100", PC := none, PIs := [], FE := none,
      CEs := [] } ]
  ++ List.take n
  [ { Typ := "NORMAL", Date := label, Time := "1200", PC := none, PIs := [], FE := none,
      CEs := [] },
    { Typ := "NORMAL", Date := label, Time := "1200", PC := none, PIs := [], FE := none,
      CEs := [] },
    { Typ := "NORMAL", Date := label, Time := "1700", PC := none, PIs := [], FE := none,
      CEs := [] } ]

/-- The quota table for the slot at schedule index `i`. -/
def withinQuota (i : Nat) (f : Flight) : Prop :=
  f.PC.toList.length ≤ 1 ∧ f.FE.toList.length ≤ 1 ∧
  (f.Typ = "MAINTENANCE" → f.PIs.length ≤ 1 ∧ f.CEs.length = 0) ∧
  (f.Typ = "NORMAL" → f.PIs.length ≤ 1 ∧ f.CEs.length ≤ 1) ∧
  (f.Typ = "TRAINING" → i % 2 = 0 → f.PIs.length ≤ 2 ∧ f.CEs.length ≤ 1) ∧
  (f.Typ = "TRAINING" → i % 2 = 1 → f.PIs.length ≤ 1 ∧ f.CEs.length ≤ 3)

/-- Every slot of a schedule is within the quota of its index. -/
def allWithinQuota (fs : List Flight) : Prop :=
  ∀ j f, fs[j]? = some f → withinQuota j f

/-- The schedule index of the first slot of day `k`: the number of slots
generated for the days before it. -/
def dayOffset (g : Globals) (ds : List Date) (k : Nat) : Nat :=
  ((ds.take k).flatMap (dateBlock g)).length

/-- The occupants of the role fields of a slot. -/
def occupants (f : Flight) : List CrewMember :=
  f.PC.toList ++ f.PIs ++ f.FE.toList ++ f.CEs

/-- The member `m` is a copy of an input crew record of status `role` whose
availability map holds `true` at `date`. -/
def fromCrew (s : List CrewAvailability) (role date : String) (m : CrewMember) : Prop :=
  ∃ c ∈ s, m = newCrewMember c ∧ c.Status = role ∧ c.Availabilty.lookup date = some true

/-- Every occupant of the slot is a copy of an eligible crew record of the
role of its field. -/
def slotFromCrew (s : List CrewAvailability) (f : Flight) : Prop :=
  (∀ m, f.PC = some m → fromCrew s "PC" f.Date m) ∧ (∀ m ∈ f.PIs, fromCrew s "PI" f.Date m) ∧
  (∀ m, f.FE = some m → fromCrew s "FE" f.Date m) ∧ (∀ m ∈ f.CEs, fromCrew s "CE" f.Date m)

/-- The three fields of a slot that the generator fills. -/
def slotShape (f : Flight) : String × String × String := (f.Typ, f.Date, f.Time)

/-- The four keys of `crewHasAFlightThisWeek` are present. -/
def weekComplete (w : WeekMap) : Prop :=
  w.PI.isSome = true ∧ w.PC.isSome = true ∧ w.FE.isSome = true ∧ w.CE.isSome = true

/-- The status is one of the four the engine knows. -/
def validStatus (c : CrewAvailability) : Prop :=
  c.Status = "PC" ∨ c.Status = "PI" ∨ c.Status = "FE" ∨ c.Status = "CE"

/-- The name under which an occupant was entered in the daily set; it is the
`crewName` of the record it was copied from. -/
def memberName (m : CrewMember) : String :=
  m.FirstName ++ " " ++ m.LastName

/-- The names of the occupants of a slot. -/
def slotNames (f : Flight) : List String :=
  (occupants f).map memberName

/-- Equal labels are adjacent: a label that occurs before index `i` and at
index `i` also stands at index `i - 1`. -/
def contiguousLabels (L : List String) : Prop :=
  ∀ j i, j < i → L[j]? = L[i]? → L[i]? ≠ none → L[i - 1]? = L[i]?

/-- The invariant of the crew loop of slot `i` for the daily booking rule. The
labels of the slots are `L`; no name occurs twice in a slot or in two slots of
one date; the names booked on the current date are in the daily set; the
slots after `i` are still empty. -/
structure DayInv (L : List String) (i : Nat) (st : AllocState) : Prop where
  labels : st.Flights.map Flight.Date = L
  current : L[i]? = some st.currentFlightDate
  nodup : ∀ f ∈ st.Flights, (slotNames f).Nodup
  disjoint : ∀ (j k : Nat) (fj fk : Flight), j ≠ k → st.Flights[j]? = some fj → st.Flights[k]? = some fk →
    fj.Date = fk.Date → ∀ n ∈ slotNames fj, n ∉ slotNames fk
  booked : ∀ f ∈ st.Flights, f.Date = st.currentFlightDate →
    ∀ n ∈ slotNames f, n ∈ st.crewHasFlight
  later : ∀ (j : Nat) (f : Flight), i < j → st.Flights[j]? = some f → slotNames f = []

/-- The invariant of the loop over the slots, before slot `i` is processed:
as `DayInv`, with the slots from `i` on still empty and the current date that
of slot `i - 1`. -/
structure DayLoopInv (L : List String) (i : Nat) (st : AllocState) : Prop where
  labels : st.Flights.map Flight.Date = L
  previous : i = 0 ∨ L[i - 1]? = some st.currentFlightDate
  nodup : ∀ f ∈ st.Flights, (slotNames f).Nodup
  disjoint : ∀ (j k : Nat) (fj fk : Flight), j ≠ k → st.Flights[j]? = some fj →
    st.Flights[k]? = some fk → fj.Date = fk.Date → ∀ n ∈ slotNames fj, n ∉ slotNames fk
  booked : ∀ f ∈ st.Flights, f.Date = st.currentFlightDate →
    ∀ n ∈ slotNames f, n ∈ st.crewHasFlight
  empty : ∀ (j : Nat) (f : Flight), i ≤ j → st.Flights[j]? = some f → slotNames f = []

/-- The number of names recorded in the four rotation sets together. -/
def weekTotal (w : WeekMap) : Nat :=
  setLen w.PI + setLen w.PC + setLen w.FE + setLen w.CE

/-- The outer map without any key, as the deleting loop leaves it. -/
def WeekMap.noKeys : WeekMap :=
  { PI := none, PC := none, FE := none, CE := none }

/-- The crew member passes the test that opens the body of the crew loop of
slot `i` in state `st`: available on the date of the slot, not yet flown that
day, not in the rotation set of its status. -/
def eligibleAt (st : AllocState) (i : Nat) (c : CrewAvailability) : Bool :=
  match st.Flights[i]? with
  | none => false
  | some f => eligible st f.Date c

/-- The crew member is assigned to slot `i` when considered in state `st`: it
passes the eligibility test and its spot is free. -/
def assignsAt (st : AllocState) (i : Nat) (c : CrewAvailability) : Bool :=
  match st.Flights[i]? with
  | none => false
  | some f =>
    eligible st f.Date c && decide (isSpotOccupied st.Flights c.Status f.Typ i = .ok false)

/-- The state in which the crew loop of slot `i` starts, in a run over the
generated slots `flights`. -/
def slotStart (g : Globals) (s : List CrewAvailability) (flights : List Flight) (i : Nat) :
    Except Failure AllocState :=
  match flightLoop g s 0 i (initialState flights) with
  | .error e => .error e
  | .ok st =>
    match st.Flights[i]? with
    | none => .error .indexPanic
    | some f => .ok (resetDay st f)

/-- The state of a run before the only PC of the crew list, of name `n`, has
been considered for the first slot: no slot has a PC, the rotation set of the
PCs is empty and the name is not in the daily set. -/
structure BeforePC (n : String) (st : AllocState) : Prop where
  complete : weekComplete st.crewHasAFlightThisWeek
  week : st.crewHasAFlightThisWeek.PC = some []
  free : ∀ f ∈ st.Flights, f.PC = none
  unbooked : n ∉ st.crewHasFlight

/-! ## Sample inputs -/

/-- A week of availability under the canonical labels of 1 to 7 January 2024. -/
def weekAvailability : List (String × Bool) :=
  [("Jan 01 24", true), ("Jan 02 24", true), ("Jan 03 24", true), ("Jan 04 24", true),
   ("Jan 05 24", true), ("Jan 06 24", true), ("Jan 07 24", true)]

/-- The crew of the scenario: one PC, one PI, one FE and three CEs, free all week. -/
def scenarioCrew : List CrewAvailability :=
  [ ⟨"Alice", "Smith", "CPT", "PC", weekAvailability⟩,
    ⟨"Bob", "Jones", "LT", "PI", weekAvailability⟩,
    ⟨"Carl", "Fox", "SGT", "FE", weekAvailability⟩,
    ⟨"Dan", "One", "SPC", "CE", weekAvailability⟩,
    ⟨"Ed", "Two", "SPC", "CE", weekAvailability⟩,
    ⟨"Fay", "Three", "SPC", "CE", weekAvailability⟩ ]

/-- The package variables of the scenario: the week from 1 January 2024, no
normal flight on any day, rosters of sizes 1, 1, 1, 3 and a full roster of 6. -/
def scenarioGlobals : Globals :=
  { dates := ["1/1/2024", "1/2/2024", "1/3/2024", "1/4/2024", "1/5/2024", "1/6/2024", "1/7/2024"],
    numFlightsByDate := [("1/1/2024", 0), ("1/2/2024", 0), ("1/3/2024", 0), ("1/4/2024", 0),
      ("1/5/2024", 0), ("1/6/2024", 0), ("1/7/2024", 0)],
    fullCrew := ["Alice Smith", "Bob Jones", "Carl Fox", "Dan One", "Ed Two", "Fay Three"],
    piCrew := ["Bob Jones"], pcCrew := ["Alice Smith"], feCrew := ["Carl Fox"],
    ceCrew := ["Dan One", "Ed Two", "Fay Three"] }

/-- One day with two normal flights, for the crew of the scenario. -/
def oneDayGlobals : Globals :=
  { scenarioGlobals with dates := ["1/1/2024"], numFlightsByDate := [("1/1/2024", 2)] }

/-- The three CEs of the scenario as they are copied into a slot. -/
def scenarioCEs : List CrewMember :=
  [⟨"Dan", "One", "SPC", "CE"⟩, ⟨"Ed", "Two", "SPC", "CE"⟩, ⟨"Fay", "Three", "SPC", "CE"⟩]

/-- The last three slots of every day of the scenario: the first TRAINING slot
holds the three CEs, the other two are empty. -/
def scenarioTraining (label : String) : List Flight :=
  [ { Typ := "TRAINING", Date := label, Time := "0800", PC := none, PIs := [], FE := none,
      CEs := scenarioCEs },
    { Typ := "TRAINING", Date := label, Time := "1000", PC := none, PIs := [], FE := none,
      CEs := [] },
    { Typ := "TRAINING", Date := label, Time := "1100", PC := none, PIs := [], FE := none,
      CEs := [] } ]

/-- The schedule of the scenario: the MAINTENANCE slot of the first day holds
the PC, the PI and the FE, the MAINTENANCE slots of the other days are empty. -/
def scenarioSchedule : List Flight :=
  { Typ := "MAINTENANCE", Date := "Jan 01 24", Time := "0900",
    PC := some ⟨"Alice", "Smith", "CPT", "PC"⟩, PIs := [⟨"Bob", "Jones", "LT", "PI"⟩],
    FE := some ⟨"Carl", "Fox", "SGT", "FE"⟩, CEs := [] } :: scenarioTraining "Jan 01 24"
  ++ ["Jan 02 24", "Jan 03 24", "Jan 04 24", "Jan 05 24", "Jan 06 24", "Jan 07 24"].flatMap
      (fun label =>
        { Typ := "MAINTENANCE", Date := label, Time := "0900", PC := none, PIs := [], FE := none,
          CEs := [] } :: scenarioTraining label)

/-- The parsed dates of the scenario. -/
def scenarioDates : List Date :=
  [⟨1, 1, 2024⟩, ⟨1, 2, 2024⟩, ⟨1, 3, 2024⟩, ⟨1, 4, 2024⟩, ⟨1, 5, 2024⟩, ⟨1, 6, 2024⟩,
   ⟨1, 7, 2024⟩]

/-- The first day of the scenario alone. -/
def firstDayGlobals : Globals :=
  { scenarioGlobals with dates := ["1/1/2024"] }

/-- The state of the first day of the scenario when the crew loop of the
second slot starts: the first slot holds the PC, the PI and the FE. -/
def secondSlotStart : AllocState :=
  { Flights := scenarioSchedule.take 1 ++ (dayFlights "Jan 01 24" 0).drop 1,
    crewHasFlight := ["Alice Smith", "Bob Jones", "Carl Fox"],
    currentFlightDate := "Jan 01 24",
    crewHasAFlightThisWeek :=
      { PI := some ["Bob Jones"], PC := some ["Alice Smith"], FE := some ["Carl Fox"],
        CE := some [] } }

/-- The state after the first CE of the scenario was written into the second
slot; the rotation set of the CEs is empty again. -/
def secondSlotAfterDan : AllocState :=
  { secondSlotStart with
    Flights := secondSlotStart.Flights.set 1
      { Typ := "TRAINING", Date := "Jan 01 24", Time := "0800", PC := none, PIs := [],
        FE := none, CEs := [⟨"Dan", "One", "SPC", "CE"⟩] },
    crewHasFlight := ["Alice Smith", "Bob Jones", "Carl Fox", "Dan One"] }

/-- Eleven PIs, all free on 1 January 2024. -/
def elevenPIs : List CrewAvailability :=
  (List.range 11).map (fun k => ⟨"Pilot", toString k, "LT", "PI", [("Jan 01 24", true)]⟩)

/-- One day with four normal flights, hence eight slots, and rosters that hold
the eleven PIs. -/
def longDayGlobals : Globals :=
  { dates := ["1/1/2024"], numFlightsByDate := [("1/1/2024", 4)],
    fullCrew := elevenPIs.map crewName, piCrew := elevenPIs.map crewName,
    pcCrew := [], feCrew := [], ceCrew := [] }

/-! ## The engine without the rotation test, and the fields of a role -/

/-- The length of the roster list of a role: `len(piCrew)`, `len(pcCrew)`,
`len(feCrew)` or `len(ceCrew)`. -/
def rosterLength (g : Globals) (role : String) : Nat :=
  if role = "PI" then g.piCrew.length
  else if role = "PC" then g.pcCrew.length
  else if role = "FE" then g.feCrew.length
  else if role = "CE" then g.ceCrew.length
  else 0

/-- The eligibility test with the rotation-window test removed for the crew of
status `role`: availability and the daily set are tested as before, the
rotation set only for the other statuses. -/
def eligibleWithoutRotation (role : String) (st : AllocState) (date : String)
    (crew : CrewAvailability) : Bool :=
  (crew.Availabilty.lookup date == some true)
    && !(st.crewHasFlight.contains (crewName crew))
    && (decide (crew.Status = role)
        || !(((st.crewHasAFlightThisWeek.get crew.Status).getD []).contains (crewName crew)))

/-- The body of the crew loop with the rotation-window test removed for `role`;
everything else is as in `considerCrew`. -/
def considerCrewWithoutRotation (role : String) (g : Globals) (i : Nat) (st : AllocState)
    (crew : CrewAvailability) : Except Failure AllocState :=
  match st.Flights[i]? with
  | none => .error .indexPanic
  | some flight =>
    if eligibleWithoutRotation role st flight.Date crew then
      match isSpotOccupied st.Flights crew.Status flight.Typ i with
      | .error e => .error e
      | .ok spotOccupied =>
        if spotOccupied then .ok st else assignCrew g i st crew
    else .ok st

/-- The crew loop with the rotation-window test removed for `role`. -/
def crewLoopWithoutRotation (role : String) (g : Globals) (i : Nat) :
    List CrewAvailability → AllocState → Except Failure AllocState
  | [], st => .ok st
  | crew :: rest, st =>
    match considerCrewWithoutRotation role g i st crew with
    | .error e => .error e
    | .ok st1 => crewLoopWithoutRotation role g i rest st1

/-- The body of the loop over the slots with the rotation-window test removed
for `role`. -/
def processFlightWithoutRotation (role : String) (g : Globals) (s : List CrewAvailability)
    (i : Nat) (st : AllocState) : Except Failure AllocState :=
  match st.Flights[i]? with
  | none => .error .indexPanic
  | some flight =>
    let st1 := if st.currentFlightDate ≠ flight.Date then { st with crewHasFlight := [] } else st
    crewLoopWithoutRotation role g i s { st1 with currentFlightDate := flight.Date }

/-- The loop over the slots with the rotation-window test removed for `role`. -/
def flightLoopWithoutRotation (role : String) (g : Globals) (s : List CrewAvailability) :
    Nat → Nat → AllocState → Except Failure AllocState
  | _, 0, st => .ok st
  | i, n + 1, st =>
    match processFlightWithoutRotation role g s i st with
    | .error e => .error e
    | .ok st1 => flightLoopWithoutRotation role g s (i + 1) n st1

/-- The schedule computed with the rotation-window test removed for `role`. -/
def calculateWithoutRotation (role : String) (g : Globals) (s : List CrewAvailability) :
    Except Failure (List Flight) :=
  match initializeFlightSchedules g with
  | .error e => .error e
  | .ok flights =>
    match flightLoopWithoutRotation role g s 0 flights.length
        { Flights := flights, crewHasFlight := [], currentFlightDate := "",
          crewHasAFlightThisWeek := WeekMap.initial } with
    | .error e => .error e
    | .ok st => .ok st.Flights

/-- The occupants of the field of a role in a slot. -/
def roleField (R : String) (f : Flight) : List CrewMember :=
  if R = "PC" then f.PC.toList
  else if R = "PI" then f.PIs
  else if R = "FE" then f.FE.toList
  else if R = "CE" then f.CEs
  else []

/-- The names of the occupants of the field of a role in a slot. -/
def roleNames (R : String) (f : Flight) : List String :=
  (roleField R f).map memberName

/-- The invariant of a run for a role `R` whose rotation set is never cleared:
every name that holds a position of the role is in the rotation set of the
role, and no name holds two positions of the role, in one slot or in two. -/
structure RoleOnce (R : String) (st : AllocState) : Prop where
  complete : weekComplete st.crewHasAFlightThisWeek
  booked : ∀ f ∈ st.Flights, ∀ n ∈ roleNames R f,
    n ∈ (st.crewHasAFlightThisWeek.get R).getD []
  nodup : ∀ f ∈ st.Flights, (roleNames R f).Nodup
  disjoint : ∀ (j k : Nat) (fj fk : Flight), j ≠ k → st.Flights[j]? = some fj →
    st.Flights[k]? = some fk → ∀ n ∈ roleNames R fj, n ∉ roleNames R fk

/-! ## Sample inputs for the priority rule, the clearing test and the rosters of one -/

/-- Two PCs, both free all week. -/
def twoPCs : List CrewAvailability :=
  [ ⟨"Alice", "Smith", "CPT", "PC", weekAvailability⟩,
    ⟨"Amy", "Adams", "CPT", "PC", weekAvailability⟩ ]

/-- One day without normal flights, with rosters that hold the two PCs. -/
def twoPCGlobals : Globals :=
  { dates := ["1/1/2024"], numFlightsByDate := [("1/1/2024", 0)],
    fullCrew := twoPCs.map crewName, piCrew := [], pcCrew := twoPCs.map crewName,
    feCrew := [], ceCrew := [] }

/-- The state in which the crew loop of the first slot of 1 January 2024 starts. -/
def firstSlotStart : AllocState :=
  { Flights := dayFlights "Jan 01 24" 0, crewHasFlight := [], currentFlightDate := "Jan 01 24",
    crewHasAFlightThisWeek := WeekMap.initial }

/-- The state after the first of the two PCs was written into the first slot;
the rotation set of the PCs, a roster of two, is empty again. -/
def firstSlotAfterAlice : AllocState :=
  { firstSlotStart with
    Flights := firstSlotStart.Flights.set 0
      { Typ := "MAINTENANCE", Date := "Jan 01 24", Time := "0900",
        PC := some ⟨"Alice", "Smith", "CPT", "PC"⟩, PIs := [], FE := none, CEs := [] },
    crewHasFlight := ["Alice Smith"] }

/-- The schedule of the day of the two PCs: the first on the MAINTENANCE slot,
the second on the first TRAINING slot. -/
def twoPCSchedule : List Flight :=
  [ { Typ := "MAINTENANCE", Date := "Jan 01 24", Time := "0900",
      PC := some ⟨"Alice", "Smith", "CPT", "PC"⟩, PIs := [], FE := none, CEs := [] },
    { Typ := "TRAINING", Date := "Jan 01 24", Time := "0800",
      PC := some ⟨"Amy", "Adams", "CPT", "PC"⟩, PIs := [], FE := none, CEs := [] },
    { Typ := "TRAINING", Date := "Jan 01 24", Time := "1000", PC := none, PIs := [], FE := none,
      CEs := [] },
    { Typ := "TRAINING", Date := "Jan 01 24", Time := "1100", PC := none, PIs := [], FE := none,
      CEs := [] } ]

/-- Two FEs, both free all week. -/
def twoFEs : List CrewAvailability :=
  [ ⟨"Carl", "Fox", "SGT", "FE", weekAvailability⟩,
    ⟨"Cole", "Ford", "SGT", "FE", weekAvailability⟩ ]

/-- One day without normal flights, with rosters that hold the two FEs. -/
def twoFEGlobals : Globals :=
  { dates := ["1/1/2024"], numFlightsByDate := [("1/1/2024", 0)],
    fullCrew := twoFEs.map crewName, piCrew := [], pcCrew := [],
    feCrew := twoFEs.map crewName, ceCrew := [] }

/-- The state after the first of the two FEs was written into the first slot. -/
def firstSlotAfterCarl : AllocState :=
  { firstSlotStart with
    Flights := firstSlotStart.Flights.set 0
      { Typ := "MAINTENANCE", Date := "Jan 01 24", Time := "0900", PC := none, PIs := [],
        FE := some ⟨"Carl", "Fox", "SGT", "FE"⟩, CEs := [] },
    crewHasFlight := ["Carl Fox"] }

/-- The schedule of the day of the two FEs. -/
def twoFESchedule : List Flight :=
  [ { Typ := "MAINTENANCE", Date := "Jan 01 24", Time := "0900", PC := none, PIs := [],
      FE := some ⟨"Carl", "Fox", "SGT", "FE"⟩, CEs := [] },
    { Typ := "TRAINING", Date := "Jan 01 24", Time := "0800", PC := none, PIs := [],
      FE := some ⟨"Cole", "Ford", "SGT", "FE"⟩, CEs := [] },
    { Typ := "TRAINING", Date := "Jan 01 24", Time := "1000", PC := none, PIs := [], FE := none,
      CEs := [] },
    { Typ := "TRAINING", Date := "Jan 01 24", Time := "1100", PC := none, PIs := [], FE := none,
      CEs := [] } ]

/-- The copy of the PI of number `k` among the eleven PIs. -/
def pilotMember (k : Nat) : CrewMember := ⟨"Pilot", toString k, "LT", "PI"⟩

/-- The record of the PI of number `k` among the eleven PIs. -/
def pilotRecord (k : Nat) : CrewAvailability :=
  ⟨"Pilot", toString k, "LT", "PI", [("Jan 01 24", true)]⟩

/-- The slot at position `p` of the day of the eleven PIs, holding the PIs of
the given numbers. -/
def pilotSlot (p : Nat) (ks : List Nat) : Flight :=
  { newFlight "Jan 01 24" p with PIs := ks.map pilotMember }

/-- The schedule of the day of the eleven PIs. -/
def longDaySchedule : List Flight :=
  [pilotSlot 0 [0], pilotSlot 1 [1], pilotSlot 2 [2, 3], pilotSlot 3 [4], pilotSlot 4 [5],
   pilotSlot 5 [6], pilotSlot 6 [7], pilotSlot 7 [8, 9, 10]]

/-- The state of the day of the eleven PIs when the crew loop of the third slot
starts: the first two PIs hold the first two slots. -/
def thirdSlotStart : AllocState :=
  { Flights := longDaySchedule.take 2 ++ (dayFlights "Jan 01 24" 4).drop 2,
    crewHasFlight := ["Pilot 0", "Pilot 1"], currentFlightDate := "Jan 01 24",
    crewHasAFlightThisWeek := WeekMap.initial }

/-- The state after the third PI was written into the third slot. -/
def thirdSlotAfterPilot : AllocState :=
  { thirdSlotStart with
    Flights := thirdSlotStart.Flights.set 2 (pilotSlot 2 [2]),
    crewHasFlight := ["Pilot 0", "Pilot 1", "Pilot 2"] }

/-- A crew of four, one record for each role; the CE is free on no day. -/
def fourCrew : List CrewAvailability :=
  [ ⟨"Alice", "Smith", "CPT", "PC", weekAvailability⟩,
    ⟨"Bob", "Jones", "LT", "PI", weekAvailability⟩,
    ⟨"Carl", "Fox", "SGT", "FE", weekAvailability⟩,
    ⟨"Dan", "One", "SPC", "CE", []⟩ ]

/-- Two days without normal flights, rosters of one name for each role and a
full roster of the four names. -/
def fourCrewGlobals : Globals :=
  { dates := ["1/1/2024", "1/2/2024"],
    numFlightsByDate := [("1/1/2024", 0), ("1/2/2024", 0)],
    fullCrew := fourCrew.map crewName, piCrew := ["Bob Jones"], pcCrew := ["Alice Smith"],
    feCrew := ["Carl Fox"], ceCrew := ["Dan One"] }

/-- The slots generated for the two days of the crew of four. -/
def fourCrewSlots : List Flight :=
  dayFlights "Jan 01 24" 0 ++ dayFlights "Jan 02 24" 0

/-- The schedule returned for the crew of four: the PC, the PI and the FE hold
the MAINTENANCE slot on both days. -/
def fourCrewSchedule : List Flight :=
  ["Jan 01 24", "Jan 02 24"].flatMap (fun label =>
    { Typ := "MAINTENANCE", Date := label, Time := "0900",
      PC := some ⟨"Alice", "Smith", "CPT", "PC"⟩, PIs := [⟨"Bob", "Jones", "LT", "PI"⟩],
      FE := some ⟨"Carl", "Fox", "SGT", "FE"⟩, CEs := [] } :: (dayFlights label 0).drop 1)

/-- Two records that bear one name, a PC and a PI, both free all week. -/
def sharedNameCrew : List CrewAvailability :=
  [ ⟨"Alice", "Smith", "CPT", "PC", weekAvailability⟩,
    ⟨"Alice", "Smith", "CPT", "PI", weekAvailability⟩ ]

/-- Two days without normal flights; each record adds its name to the full
roster and to the roster of its status, so the PC and PI rosters have one name
and the full roster two. -/
def sharedNameGlobals : Globals :=
  { dates := ["1/1/2024", "1/2/2024"],
    numFlightsByDate := [("1/1/2024", 0), ("1/2/2024", 0)],
    fullCrew := sharedNameCrew.map crewName, piCrew := ["Alice Smith"],
    pcCrew := ["Alice Smith"], feCrew := [], ceCrew := [] }

/-! ## Properties -/

/-! ### The generator -/

theorem initializeLoop_ok (g : Globals) (ds : List Date) :
    ∀ (dates : List String) (acc : List Flight), dates.map parseInputDate = ds.map some →
      initializeLoop g dates acc = .ok (acc ++ ds.flatMap (dateBlock g)) := by
  induction ds with
  | nil =>
    intro dates acc h
    cases dates with
    | nil => simp [initializeLoop]
    | cons a t => simp at h
  | cons d ds ih =>
    intro dates acc h
    cases dates with
    | nil => simp at h
    | cons a t =>
      simp only [List.map_cons, List.cons.injEq] at h
      simp only [initializeLoop, h.1]
      rw [ih t _ h.2]
      simp [dateBlock, List.append_assoc]

/-- The generator either walks the whole date list or stops at a date that does
not parse. -/
theorem initializeLoop_cases (g : Globals) :
    ∀ (dates : List String) (acc : List Flight),
      (∃ ds : List Date, dates.map parseInputDate = ds.map some ∧
        initializeLoop g dates acc = .ok (acc ++ ds.flatMap (dateBlock g))) ∨
      (∃ date, date ∈ dates ∧ parseInputDate date = none ∧
        initializeLoop g dates acc = .error (.parseError date)) := by
  intro dates
  induction dates with
  | nil =>
    intro acc
    exact Or.inl ⟨[], rfl, by simp [initializeLoop]⟩
  | cons a t ih =>
    intro acc
    cases hp : parseInputDate a with
    | none => exact Or.inr ⟨a, List.mem_cons_self _ _, hp, by simp [initializeLoop, hp]⟩
    | some d =>
      rcases ih (acc ++ dateBlock g d) with ⟨ds, hds, hl⟩ | ⟨date, hm, hn, hl⟩
      · refine Or.inl ⟨d :: ds, by simp [hp, hds], ?_⟩
        simp only [initializeLoop, hp]
        simpa [dateBlock, List.append_assoc] using hl
      · refine Or.inr ⟨date, List.mem_cons_of_mem _ hm, hn, ?_⟩
        simp only [initializeLoop, hp]
        exact hl

/-- Without overflow the bound of the inner loop is the count plus four. -/
theorem slotCount_eq (n : Int) (h0 : -9223372036854775808 ≤ n)
    (h1 : n + 4 < 9223372036854775808) : slotCount n = n + 4 := by
  simp only [slotCount, wrapInt, NUMBER_OF_MAINTENANCE_FLIGHTS, NUMBER_OF_TRAINING_FLIGHTS]
  omega

theorem dayFlights_length (label : String) (n : Int) :
    (dayFlights label n).length = (slotCount n).toNat := by
  simp [dayFlights]

theorem dayFlights_getElem (label : String) (n : Int) (j : Nat)
    (hj : j < (dayFlights label n).length) :
    (dayFlights label n)[j]? = some (newFlight label j) := by
  rw [dayFlights_length] at hj
  simp only [dayFlights]
  rw [List.getElem?_map, List.getElem?_range hj]
  rfl

/-- A count whose sum with four passes the largest `int` gives a negative
bound: the inner loop appends no slot. -/
theorem dayFlights_overflow (label : String) :
    dayFlights label 9223372036854775807 = [] := by
  have h : slotCount 9223372036854775807 = -9223372036854775805 := by decide
  simp [dayFlights, h]

theorem dayFlights_spec (label : String) (n : Int) (h0 : 0 ≤ n) (h3 : n ≤ 3) :
    dayFlights label n = specDayBlock label n.toNat := by
  obtain ⟨k, rfl⟩ := Int.eq_ofNat_of_zero_le h0
  have hk : k ≤ 3 := by omega
  have hc : slotCount (k : Int) = ((k + 4 : Nat) : Int) := by
    rw [slotCount_eq _ (by omega) (by omega)]
    rfl
  rw [dayFlights, hc, Int.toNat_ofNat]
  interval_cases k <;> rfl

theorem mem_dayFlights_empty (label : String) (n : Int) (f : Flight) (h : f ∈ dayFlights label n) :
    f.Date = label ∧ f.PC = none ∧ f.PIs = [] ∧ f.FE = none ∧ f.CEs = [] := by
  simp only [dayFlights, List.mem_map] at h
  obtain ⟨i, -, rfl⟩ := h
  simp [newFlight]

/-- Every generated slot has empty role fields. -/
theorem initialize_empty (g : Globals) (flights : List Flight)
    (h : initializeFlightSchedules g = .ok flights) (f : Flight) (hf : f ∈ flights) :
    f.PC = none ∧ f.PIs = [] ∧ f.FE = none ∧ f.CEs = [] := by
  rcases initializeLoop_cases g g.dates [] with ⟨ds, -, hl⟩ | ⟨date, -, -, hl⟩
  · rw [initializeFlightSchedules, hl] at h
    injection h with h
    subst h
    simp only [List.nil_append, List.mem_flatMap] at hf
    obtain ⟨d, -, hd⟩ := hf
    exact (mem_dayFlights_empty _ _ f hd).2
  · rw [initializeFlightSchedules, hl] at h
    cases h

/-! ### The steps of the loops -/

/-- What a successful step of the crew loop does: nothing, or one assignment. -/
theorem considerCrew_ok (g : Globals) (i : Nat) (st st1 : AllocState) (crew : CrewAvailability)
    (h : considerCrew g i st crew = .ok st1) :
    st1 = st ∨
    ∃ flight w, st.Flights[i]? = some flight ∧ eligible st flight.Date crew = true ∧
      isSpotOccupied st.Flights crew.Status flight.Typ i = .ok false ∧
      st.crewHasAFlightThisWeek.mark crew.Status (crewName crew) = .ok w ∧
      st1 = { st with
              Flights := st.Flights.set i (placeCrew flight crew)
              crewHasFlight := setInsert st.crewHasFlight (crewName crew)
              crewHasAFlightThisWeek := ninetyPercentResets g (clearWhenEveryoneFlew g w) } := by
  unfold considerCrew at h
  cases hf : st.Flights[i]? with
  | none => simp [hf] at h
  | some flight =>
    simp only [hf] at h
    by_cases he : eligible st flight.Date crew = true
    · simp only [he, if_true] at h
      cases ho : isSpotOccupied st.Flights crew.Status flight.Typ i with
      | error e => simp [ho] at h
      | ok b =>
        simp only [ho] at h
        cases b with
        | true =>
          simp at h
          exact Or.inl h.symm
        | false =>
          simp only [Bool.false_eq_true, if_false] at h
          unfold assignCrew at h
          simp only [hf] at h
          cases hm : st.crewHasAFlightThisWeek.mark crew.Status (crewName crew) with
          | error e => simp [hm] at h
          | ok w =>
            simp only [hm] at h
            refine Or.inr ⟨flight, w, rfl, he, ?_, rfl, ?_⟩
            · exact ho
            · injection h with h
              exact h.symm
    · simp only [he] at h
      simp at h
      exact Or.inl h.symm

/-- An invariant of the steps is an invariant of the crew loop. -/
theorem crewLoop_invariant (g : Globals) (i : Nat) (P : AllocState → Prop)
    (s : List CrewAvailability)
    (hstep : ∀ st st1 crew, crew ∈ s → P st → considerCrew g i st crew = .ok st1 → P st1) :
    ∀ st st1, P st → crewLoop g i s st = .ok st1 → P st1 := by
  induction s with
  | nil =>
    intro st st1 hP h
    simp only [crewLoop] at h
    injection h with h
    exact h ▸ hP
  | cons c rest ih =>
    intro st st1 hP h
    simp only [crewLoop] at h
    cases hc : considerCrew g i st c with
    | error e => simp [hc] at h
    | ok st2 =>
      simp only [hc] at h
      exact ih (fun a b crew hm => hstep a b crew (List.mem_cons_of_mem _ hm)) st2 st1
        (hstep st st2 c (List.mem_cons_self _ _) hP hc) h

/-- An invariant indexed by the slot about to be processed. -/
theorem flightLoop_invariant (g : Globals) (s : List CrewAvailability)
    (P : Nat → AllocState → Prop)
    (hstep : ∀ i st st1, P i st → processFlight g s i st = .ok st1 → P (i + 1) st1) :
    ∀ n i st st1, P i st → flightLoop g s i n st = .ok st1 → P (i + n) st1 := by
  intro n
  induction n with
  | zero =>
    intro i st st1 hP h
    simp only [flightLoop] at h
    injection h with h
    exact h ▸ hP
  | succ n ih =>
    intro i st st1 hP h
    simp only [flightLoop] at h
    cases hp : processFlight g s i st with
    | error e => simp [hp] at h
    | ok st2 =>
      simp only [hp] at h
      have := ih (i + 1) st2 st1 (hstep i st st2 hP hp) h
      rw [show i + (n + 1) = i + 1 + n by omega]
      exact this

theorem processFlight_ok (g : Globals) (s : List CrewAvailability) (i : Nat)
    (st st1 : AllocState) (h : processFlight g s i st = .ok st1) :
    ∃ flight, st.Flights[i]? = some flight ∧ crewLoop g i s (resetDay st flight) = .ok st1 := by
  unfold processFlight at h
  cases hf : st.Flights[i]? with
  | none => simp [hf] at h
  | some flight => exact ⟨flight, rfl, by simpa [hf, resetDay] using h⟩

theorem resetDay_flights (st : AllocState) (flight : Flight) :
    (resetDay st flight).Flights = st.Flights := by
  unfold resetDay
  split_ifs <;> rfl

theorem resetDay_week (st : AllocState) (flight : Flight) :
    (resetDay st flight).crewHasAFlightThisWeek = st.crewHasAFlightThisWeek := by
  unfold resetDay
  split_ifs <;> rfl

theorem resetDay_date (st : AllocState) (flight : Flight) :
    (resetDay st flight).currentFlightDate = flight.Date := rfl

theorem calculate_ok (g : Globals) (s : List CrewAvailability) (fs : List Flight)
    (h : calculateFlightSchedules g s = .ok fs) :
    ∃ flights st, initializeFlightSchedules g = .ok flights ∧
      flightLoop g s 0 flights.length (initialState flights) = .ok st ∧ st.Flights = fs := by
  unfold calculateFlightSchedules at h
  cases hi : initializeFlightSchedules g with
  | error e => simp [hi] at h
  | ok flights =>
    simp only [hi] at h
    cases hl : flightLoop g s 0 flights.length (initialState flights) with
    | error e =>
      simp only [initialState] at hl
      simp [hl] at h
    | ok st =>
      simp only [initialState] at hl
      simp only [hl] at h
      injection h with h
      exact ⟨flights, st, rfl, hl, h⟩

/-- A property of the slots that every step keeps holds of the returned schedule
as soon as it holds of the generated one. -/
theorem schedule_invariant (g : Globals) (s : List CrewAvailability) (P : List Flight → Prop)
    (hstep : ∀ i st st1 crew, crew ∈ s → P st.Flights → considerCrew g i st crew = .ok st1 →
      P st1.Flights)
    (h0 : ∀ flights, initializeFlightSchedules g = .ok flights → P flights)
    (fs : List Flight) (h : calculateFlightSchedules g s = .ok fs) : P fs := by
  obtain ⟨flights, st, hi, hl, rfl⟩ := calculate_ok g s fs h
  exact flightLoop_invariant g s (fun _ st => P st.Flights) (by
    intro i st st1 hP hp
    obtain ⟨flight, -, hc⟩ := processFlight_ok g s i st st1 hp
    refine crewLoop_invariant g i (fun st => P st.Flights) s (fun a b c hm => hstep i a b c hm)
      (resetDay st flight) st1 ?_ hc
    show P (resetDay st flight).Flights
    rw [resetDay_flights]
    exact hP) flights.length 0 _ st (h0 flights hi) hl

theorem placeCrew_typ (f : Flight) (c : CrewAvailability) : (placeCrew f c).Typ = f.Typ := by
  unfold placeCrew
  split_ifs <;> rfl

theorem placeCrew_date (f : Flight) (c : CrewAvailability) : (placeCrew f c).Date = f.Date := by
  unfold placeCrew
  split_ifs <;> rfl

theorem placeCrew_time (f : Flight) (c : CrewAvailability) : (placeCrew f c).Time = f.Time := by
  unfold placeCrew
  split_ifs <;> rfl

/-! ### The quota table -/

theorem option_toList_length_le_one {α : Type} (o : Option α) : o.toList.length ≤ 1 := by
  cases o <;> simp

theorem withinQuota_placeCrew (fs : List Flight) (i : Nat) (f : Flight) (c : CrewAvailability)
    (ty : String) (hf : fs[i]? = some f) (hq : withinQuota i f)
    (ho : isSpotOccupied fs c.Status ty i = .ok false) : withinQuota i (placeCrew f c) := by
  obtain ⟨-, -, hM, hN, hT0, hT1⟩ := hq
  refine ⟨option_toList_length_le_one _, option_toList_length_le_one _, ?_, ?_, ?_, ?_⟩
  all_goals
    simp only [placeCrew_typ]
    simp only [isSpotOccupied, hf] at ho
    unfold placeCrew
  · intro ht
    have := hM ht
    split_ifs at ho ⊢ <;>
      (simp_all; try (first | omega | (rw [← List.length_eq_zero]; omega)))
  · intro ht
    have := hN ht
    split_ifs at ho ⊢ <;> simp_all <;> first | omega | (rw [← List.length_eq_zero]; omega)
  · intro ht hi
    have := hT0 ht hi
    split_ifs at ho ⊢ <;> simp_all <;> first | omega | (rw [← List.length_eq_zero]; omega)
  · intro ht hi
    have := hT1 ht hi
    split_ifs at ho ⊢ <;> simp_all <;> first | omega | (rw [← List.length_eq_zero]; omega)

theorem allWithinQuota_step (g : Globals) (i : Nat) (st st1 : AllocState) (crew : CrewAvailability)
    (hq : allWithinQuota st.Flights) (h : considerCrew g i st crew = .ok st1) :
    allWithinQuota st1.Flights := by
  rcases considerCrew_ok g i st st1 crew h with rfl | ⟨flight, w, hf, -, ho, -, rfl⟩
  · exact hq
  · intro j f hj
    simp only [List.getElem?_set] at hj
    split_ifs at hj with hij hlt
    · injection hj with hj
      subst hj
      subst hij
      exact withinQuota_placeCrew st.Flights i flight crew flight.Typ hf (hq i flight hf) ho
    · exact hq j f hj

theorem allWithinQuota_initial (g : Globals) (flights : List Flight)
    (h : initializeFlightSchedules g = .ok flights) : allWithinQuota flights := by
  intro j f hj
  obtain ⟨h1, h2, h3, h4⟩ := initialize_empty g flights h f (List.getElem?_mem hj)
  simp [withinQuota, h1, h2, h3, h4]

/-! ### Claims on the occupancy rule and the generator -/

/-- C5: `isSpotOccupied` on the slot `f` at index `i` of the schedule is the quota
table with the parity of `i`: for PC and FE it tells whether the occupant is
present; for PI it tells whether the list has length 1 on MAINTENANCE and
NORMAL, 2 on TRAINING at an even index, 1 on TRAINING at an odd index; for CE it
is true on MAINTENANCE and otherwise tells whether the list has length 1 on
TRAINING at an even index, 3 on TRAINING at an odd index, 1 on NORMAL. -/
theorem isSpotOccupied_quota_table (schedule : List Flight) (type : String) (i : Nat) (f : Flight)
    (h : schedule[i]? = some f) :
    isSpotOccupied schedule "PC" type i = .ok f.PC.isSome
    ∧ isSpotOccupied schedule "FE" type i = .ok f.FE.isSome
    ∧ (f.Typ = "MAINTENANCE" ∨ f.Typ = "NORMAL" →
        isSpotOccupied schedule "PI" type i = .ok (f.PIs.length == 1))
    ∧ (f.Typ = "TRAINING" → i % 2 = 0 →
        isSpotOccupied schedule "PI" type i = .ok (f.PIs.length == 2))
    ∧ (f.Typ = "TRAINING" → i % 2 = 1 →
        isSpotOccupied schedule "PI" type i = .ok (f.PIs.length == 1))
    ∧ (f.Typ = "MAINTENANCE" → isSpotOccupied schedule "CE" type i = .ok true)
    ∧ (f.Typ = "TRAINING" → i % 2 = 0 →
        isSpotOccupied schedule "CE" type i = .ok (f.CEs.length == 1))
    ∧ (f.Typ = "TRAINING" → i % 2 = 1 →
        isSpotOccupied schedule "CE" type i = .ok (f.CEs.length == 3))
    ∧ (f.Typ = "NORMAL" → isSpotOccupied schedule "CE" type i = .ok (f.CEs.length == 1)) := by
  refine ⟨?_, ?_, ?_, ?_, ?_, ?_, ?_, ?_, ?_⟩
  · simp [isSpotOccupied, h]
  · simp [isSpotOccupied, h]
  · intro ht
    simp [isSpotOccupied, h, ht]
  · intro ht hi
    simp [isSpotOccupied, h, ht, hi]
  · intro ht hi
    simp [isSpotOccupied, h, ht, hi]
  · intro ht
    simp [isSpotOccupied, h, ht]
  · intro ht hi
    simp [isSpotOccupied, h, ht, hi]
  · intro ht hi
    simp [isSpotOccupied, h, ht, hi]
  · intro ht
    simp [isSpotOccupied, h, ht]

/-- C5 at the third slot of a generated day, a TRAINING slot at an even index. -/
theorem isSpotOccupied_quota_table_witness :
    (specDayBlock "Jan 01 24" 0)[2]? = some (newFlight "Jan 01 24" 2)
    ∧ isSpotOccupied (specDayBlock "Jan 01 24" 0) "PI" "" 2
        = .ok ((newFlight "Jan 01 24" 2).PIs.length == 2) :=
  ⟨by decide,
   (isSpotOccupied_quota_table (specDayBlock "Jan 01 24" 0) "" 2 (newFlight "Jan 01 24" 2)
      (by decide)).2.2.2.1 (by decide) (by decide)⟩

/-- C6: when every date parses and every per-date count is between 0 and 3, the
generator returns, in date order, one block per date: a MAINTENANCE slot at
0900, three TRAINING slots at 0800, 1000 and 1100, then as many NORMAL slots as
the count, at 1200, 1200 and 1700, all with the canonical label of the date and
empty role fields. -/
theorem initializeFlightSchedules_blocks (g : Globals) (ds : List Date)
    (hparse : g.dates.map parseInputDate = ds.map some)
    (hcount : ∀ d ∈ ds, 0 ≤ numFlights g (formatInputDate d) ∧
      numFlights g (formatInputDate d) ≤ 3) :
    initializeFlightSchedules g = .ok (ds.flatMap (fun d =>
      specDayBlock (formatFullDate d) (numFlights g (formatInputDate d)).toNat)) := by
  rw [initializeFlightSchedules, initializeLoop_ok g ds g.dates [] hparse, List.nil_append]
  congr 1
  apply List.flatMap_congr
  intro d hd
  exact dayFlights_spec _ _ (hcount d hd).1 (hcount d hd).2

/-- C6 on one day with two normal flights. -/
theorem initializeFlightSchedules_blocks_witness :
    oneDayGlobals.dates.map parseInputDate = [(⟨1, 1, 2024⟩ : Date)].map some
    ∧ initializeFlightSchedules oneDayGlobals = .ok (specDayBlock "Jan 01 24" 2) :=
  ⟨by decide,
   initializeFlightSchedules_blocks oneDayGlobals [⟨1, 1, 2024⟩] (by decide) (by decide)⟩

theorem initialize_getElem (g : Globals) (ds : List Date)
    (hparse : g.dates.map parseInputDate = ds.map some) (k : Nat) (d : Date)
    (hk : ds[k]? = some d) (j : Nat) (hj : j < (dateBlock g d).length) :
    ∃ fs, initializeFlightSchedules g = .ok fs ∧
      fs[dayOffset g ds k + j]? = some (newFlight (formatFullDate d) j) := by
  refine ⟨_, by rw [initializeFlightSchedules, initializeLoop_ok g ds g.dates [] hparse], ?_⟩
  have hklt : k < ds.length := by
    by_contra hc
    rw [List.getElem?_eq_none (by omega)] at hk
    cases hk
  have hdk : ds[k] = d := by
    rw [List.getElem?_eq_getElem hklt] at hk
    injection hk
  have hsplit : ds = ds.take k ++ d :: ds.drop (k + 1) := by
    rw [← hdk]
    simp
  have hfl : ds.flatMap (dateBlock g)
      = (ds.take k).flatMap (dateBlock g)
        ++ (dateBlock g d ++ (ds.drop (k + 1)).flatMap (dateBlock g)) := by
    conv_lhs => rw [hsplit]
    simp [List.flatMap_append]
  rw [List.nil_append, hfl, dayOffset, List.getElem?_append_right (by omega)]
  simp only [Nat.add_sub_cancel_left]
  rw [List.getElem?_append_left hj]
  exact dayFlights_getElem _ _ j hj

/-- C9, the claim at a concrete input: on a day with two normal flights the slot
at position 4 has type NORMAL, not TRAINING. -/
theorem position_four_counterexample :
    ∃ fs f, initializeFlightSchedules oneDayGlobals = .ok fs ∧ fs[4]? = some f ∧
      f.Typ = "NORMAL" ∧ f.Typ ≠ "TRAINING" :=
  ⟨specDayBlock "Jan 01 24" 2, newFlight "Jan 01 24" 4, by decide, by decide, by decide, by decide⟩

/-- C9 as amended: for every day `k` configured with at least one normal flight,
the count being small enough for the count plus four to stay below 2^63, the
range of a Go `int`, the slot at position 4 within that day, at schedule index
`dayOffset g ds k + 4`, has type NORMAL, the time label 1200, the label of the
day and empty role fields. -/
theorem position_four_is_normal (g : Globals) (ds : List Date)
    (hparse : g.dates.map parseInputDate = ds.map some) (k : Nat) (d : Date)
    (hk : ds[k]? = some d) (hn : 1 ≤ numFlights g (formatInputDate d))
    (hmax : numFlights g (formatInputDate d) + 4 < 9223372036854775808) :
    ∃ fs, initializeFlightSchedules g = .ok fs ∧
      fs[dayOffset g ds k + 4]? =
        some { Typ := "NORMAL", Date := formatFullDate d, Time := "1200",
               PC := none, PIs := [], FE := none, CEs := [] } := by
  have hj : 4 < (dateBlock g d).length := by
    rw [dateBlock, dayFlights_length, slotCount_eq _ (by omega) hmax]
    omega
  exact initialize_getElem g ds hparse k d hk 4 hj

/-- C9 as amended, on one day with two normal flights. -/
theorem position_four_is_normal_witness :
    ∃ fs, initializeFlightSchedules oneDayGlobals = .ok fs ∧
      fs[dayOffset oneDayGlobals [⟨1, 1, 2024⟩] 0 + 4]? =
        some { Typ := "NORMAL", Date := "Jan 01 24", Time := "1200",
               PC := none, PIs := [], FE := none, CEs := [] } :=
  position_four_is_normal oneDayGlobals [⟨1, 1, 2024⟩] (by decide) 0 ⟨1, 1, 2024⟩ (by decide)
    (by decide) (by decide)

/-! ### Claim on the quotas -/

/-- C1: in the schedule returned by `calculateFlightSchedules`, the slot `f` at
index `i` has at most one PC and one FE; on MAINTENANCE at most 1 PI and no CE;
on NORMAL at most 1 PI and 1 CE; on TRAINING at an even index at most 2 PIs and
1 CE, at an odd index at most 1 PI and 3 CEs. -/
theorem calculateFlightSchedules_within_quota (g : Globals) (s : List CrewAvailability)
    (fs : List Flight) (h : calculateFlightSchedules g s = .ok fs) (i : Nat) (f : Flight)
    (hf : fs[i]? = some f) :
    f.PC.toList.length ≤ 1 ∧ f.FE.toList.length ≤ 1 ∧
    (f.Typ = "MAINTENANCE" → f.PIs.length ≤ 1 ∧ f.CEs.length = 0) ∧
    (f.Typ = "NORMAL" → f.PIs.length ≤ 1 ∧ f.CEs.length ≤ 1) ∧
    (f.Typ = "TRAINING" → i % 2 = 0 → f.PIs.length ≤ 2 ∧ f.CEs.length ≤ 1) ∧
    (f.Typ = "TRAINING" → i % 2 = 1 → f.PIs.length ≤ 1 ∧ f.CEs.length ≤ 3) :=
  schedule_invariant g s allWithinQuota
    (fun i st st1 crew _ hq hc => allWithinQuota_step g i st st1 crew hq hc)
    (fun flights hi => allWithinQuota_initial g flights hi) fs h i f hf

theorem eligible_iff (st : AllocState) (date : String) (c : CrewAvailability) :
    eligible st date c = true ↔
      c.Availabilty.lookup date = some true ∧ crewName c ∉ st.crewHasFlight ∧
      crewName c ∉ (st.crewHasAFlightThisWeek.get c.Status).getD [] := by
  simp [eligible, and_assoc]

theorem slotFromCrew_placeCrew (s : List CrewAvailability) (f : Flight) (c : CrewAvailability)
    (hc : c ∈ s) (ha : c.Availabilty.lookup f.Date = some true) (h : slotFromCrew s f) :
    slotFromCrew s (placeCrew f c) := by
  obtain ⟨h1, h2, h3, h4⟩ := h
  unfold placeCrew
  split_ifs with hPC hPI hFE hCE
  · refine ⟨?_, h2, h3, h4⟩
    intro m hm
    simp only [Option.some.injEq] at hm
    exact ⟨c, hc, hm.symm, hPC, ha⟩
  · refine ⟨h1, ?_, h3, h4⟩
    intro m hm
    simp only [List.mem_append, List.mem_singleton] at hm
    rcases hm with hm | hm
    · exact h2 m hm
    · exact ⟨c, hc, hm, hPI, ha⟩
  · refine ⟨h1, h2, ?_, h4⟩
    intro m hm
    simp only [Option.some.injEq] at hm
    exact ⟨c, hc, hm.symm, hFE, ha⟩
  · refine ⟨h1, h2, h3, ?_⟩
    intro m hm
    simp only [List.mem_append, List.mem_singleton] at hm
    rcases hm with hm | hm
    · exact h4 m hm
    · exact ⟨c, hc, hm, hCE, ha⟩
  · exact ⟨h1, h2, h3, h4⟩

theorem mem_set_cases {α : Type} (l : List α) (i : Nat) (a x : α) (h : x ∈ l.set i a) :
    x = a ∨ x ∈ l := by
  rcases List.getElem?_of_mem h with ⟨n, hn⟩
  rw [List.getElem?_set] at hn
  split_ifs at hn
  · injection hn with hn
    exact Or.inl hn.symm
  · exact Or.inr (List.getElem?_mem hn)

theorem allFromCrew_step (g : Globals) (s : List CrewAvailability) (i : Nat) (st st1 : AllocState)
    (crew : CrewAvailability) (hc : crew ∈ s) (hq : ∀ f ∈ st.Flights, slotFromCrew s f)
    (h : considerCrew g i st crew = .ok st1) : ∀ f ∈ st1.Flights, slotFromCrew s f := by
  rcases considerCrew_ok g i st st1 crew h with rfl | ⟨flight, w, hf, he, -, -, rfl⟩
  · exact hq
  · intro f hfm
    rcases mem_set_cases _ _ _ _ hfm with rfl | hfm
    · exact slotFromCrew_placeCrew s flight crew hc ((eligible_iff _ _ _).1 he).1
        (hq flight (List.getElem?_mem hf))
    · exact hq f hfm

theorem allFromCrew (g : Globals) (s : List CrewAvailability) (fs : List Flight)
    (h : calculateFlightSchedules g s = .ok fs) : ∀ f ∈ fs, slotFromCrew s f := by
  refine schedule_invariant g s (fun fs => ∀ f ∈ fs, slotFromCrew s f)
    (fun i st st1 crew hc hq hs => allFromCrew_step g s i st st1 crew hc hq hs) ?_ fs h
  intro flights hi f hf
  obtain ⟨h1, h2, h3, h4⟩ := initialize_empty g flights hi f hf
  simp [slotFromCrew, h1, h2, h3, h4]

/-! ### Claim on the origin of the occupants -/

/-- C3: every occupant of a role field of a slot `f` of the returned schedule is
a copy of some input crew record whose status is the role of the field and
whose availability map holds `true` at the date of the slot. Hence a member all
of whose records are unavailable on that date (false or missing) does not occur
in the slot, and a role without any crew record leaves its field empty. -/
theorem occupants_from_crew (g : Globals) (s : List CrewAvailability) (fs : List Flight)
    (h : calculateFlightSchedules g s = .ok fs) (f : Flight) (hf : f ∈ fs) :
    ((∀ m, f.PC = some m → fromCrew s "PC" f.Date m) ∧ (∀ m ∈ f.PIs, fromCrew s "PI" f.Date m) ∧
      (∀ m, f.FE = some m → fromCrew s "FE" f.Date m) ∧ (∀ m ∈ f.CEs, fromCrew s "CE" f.Date m))
    ∧ (∀ m, (∀ c ∈ s, newCrewMember c = m → c.Availabilty.lookup f.Date ≠ some true) →
        m ∉ occupants f)
    ∧ ((∀ c ∈ s, c.Status ≠ "PC") → f.PC = none) ∧ ((∀ c ∈ s, c.Status ≠ "PI") → f.PIs = [])
    ∧ ((∀ c ∈ s, c.Status ≠ "FE") → f.FE = none) ∧ ((∀ c ∈ s, c.Status ≠ "CE") → f.CEs = []) := by
  have hs := allFromCrew g s fs h f hf
  obtain ⟨h1, h2, h3, h4⟩ := hs
  refine ⟨⟨h1, h2, h3, h4⟩, ?_, ?_, ?_, ?_, ?_⟩
  · intro m hm hmem
    simp only [occupants, List.mem_append, Option.mem_toList, Option.mem_def] at hmem
    rcases hmem with ((hmem | hmem) | hmem) | hmem
    · obtain ⟨c, hc, rfl, -, ha⟩ := h1 m hmem
      exact hm c hc rfl ha
    · obtain ⟨c, hc, rfl, -, ha⟩ := h2 m hmem
      exact hm c hc rfl ha
    · obtain ⟨c, hc, rfl, -, ha⟩ := h3 m hmem
      exact hm c hc rfl ha
    · obtain ⟨c, hc, rfl, -, ha⟩ := h4 m hmem
      exact hm c hc rfl ha
  · intro hno
    cases hpc : f.PC with
    | none => rfl
    | some m =>
      obtain ⟨c, hc, -, hst, -⟩ := h1 m hpc
      exact absurd hst (hno c hc)
  · intro hno
    cases hpi : f.PIs with
    | nil => rfl
    | cons m t =>
      obtain ⟨c, hc, -, hst, -⟩ := h2 m (by simp [hpi])
      exact absurd hst (hno c hc)
  · intro hno
    cases hpc : f.FE with
    | none => rfl
    | some m =>
      obtain ⟨c, hc, -, hst, -⟩ := h3 m hpc
      exact absurd hst (hno c hc)
  · intro hno
    cases hpi : f.CEs with
    | nil => rfl
    | cons m t =>
      obtain ⟨c, hc, -, hst, -⟩ := h4 m (by simp [hpi])
      exact absurd hst (hno c hc)

/-! ### Termination without panic -/

theorem weekComplete_initial : weekComplete WeekMap.initial := by
  simp [weekComplete, WeekMap.initial]

theorem weekComplete_len (w : WeekMap) (h : weekComplete w) : w.len = 4 := by
  obtain ⟨h1, h2, h3, h4⟩ := h
  simp [WeekMap.len, h1, h2, h3, h4]

theorem ninetyPercent_none (n : Nat) : ninetyPercent n none = true := by
  simp [ninetyPercent, setLen]

theorem resetSet_isSome (n : Nat) (s : Option (List String)) :
    (resetSet n s).isSome = true := by
  unfold resetSet
  split_ifs with h
  · rfl
  · cases s with
    | none => exact absurd (ninetyPercent_none n) h
    | some l => rfl

theorem weekComplete_resets (g : Globals) (w : WeekMap) :
    weekComplete (ninetyPercentResets g w) :=
  ⟨resetSet_isSome _ _, resetSet_isSome _ _, resetSet_isSome _ _, resetSet_isSome _ _⟩

theorem mark_total (w : WeekMap) (status name : String) (h : weekComplete w)
    (hs : status = "PC" ∨ status = "PI" ∨ status = "FE" ∨ status = "CE") :
    ∃ w1, w.mark status name = .ok w1 ∧ weekComplete w1 := by
  obtain ⟨h1, h2, h3, h4⟩ := h
  obtain ⟨a, ha⟩ := Option.isSome_iff_exists.1 h1
  obtain ⟨b, hb⟩ := Option.isSome_iff_exists.1 h2
  obtain ⟨c, hc⟩ := Option.isSome_iff_exists.1 h3
  obtain ⟨d, hd⟩ := Option.isSome_iff_exists.1 h4
  rcases hs with rfl | rfl | rfl | rfl
  · exact ⟨{ w with PC := some (setInsert b name) }, by simp [WeekMap.mark, WeekMap.get, hb],
      by simp [weekComplete, h1, h3, h4]⟩
  · exact ⟨{ w with PI := some (setInsert a name) }, by simp [WeekMap.mark, WeekMap.get, ha],
      by simp [weekComplete, h2, h3, h4]⟩
  · exact ⟨{ w with FE := some (setInsert c name) }, by simp [WeekMap.mark, WeekMap.get, hc],
      by simp [weekComplete, h1, h2, h4]⟩
  · exact ⟨{ w with CE := some (setInsert d name) }, by simp [WeekMap.mark, WeekMap.get, hd],
      by simp [weekComplete, h1, h2, h3]⟩

theorem isSpotOccupied_total (fs : List Flight) (status ty : String) (i : Nat) (f : Flight)
    (h : fs[i]? = some f) : ∃ b, isSpotOccupied fs status ty i = .ok b := by
  unfold isSpotOccupied
  simp only [h]
  split_ifs <;> exact ⟨_, rfl⟩

theorem slotShape_placeCrew (f : Flight) (c : CrewAvailability) :
    slotShape (placeCrew f c) = slotShape f := by
  simp [slotShape, placeCrew_typ, placeCrew_date, placeCrew_time]

theorem map_set_same {α β : Type} (l : List α) (i : Nat) (a b : α) (f : α → β)
    (h : l[i]? = some a) (hab : f b = f a) : (l.set i b).map f = l.map f := by
  apply List.ext_getElem?
  intro n
  simp only [List.getElem?_map, List.getElem?_set]
  split_ifs with h1 h2
  · subst h1
    simp [h, hab]
  · subst h1
    rw [List.getElem?_eq_none (by omega)]
  · rfl

/-- A step never changes the type, date or time of a slot. -/
theorem considerCrew_shape (g : Globals) (i : Nat) (st st1 : AllocState) (crew : CrewAvailability)
    (h : considerCrew g i st crew = .ok st1) :
    st1.Flights.map slotShape = st.Flights.map slotShape := by
  rcases considerCrew_ok g i st st1 crew h with rfl | ⟨flight, w, hf, -, -, -, rfl⟩
  · rfl
  · exact map_set_same _ _ _ _ _ hf (slotShape_placeCrew flight crew)

theorem considerCrew_total (g : Globals) (i : Nat) (st : AllocState) (crew : CrewAvailability)
    (hw : weekComplete st.crewHasAFlightThisWeek) (hi : i < st.Flights.length)
    (hs : validStatus crew) :
    ∃ st1, considerCrew g i st crew = .ok st1 ∧ weekComplete st1.crewHasAFlightThisWeek := by
  obtain ⟨f, hf⟩ : ∃ f, st.Flights[i]? = some f := ⟨_, List.getElem?_eq_getElem hi⟩
  unfold considerCrew
  simp only [hf]
  split_ifs with he
  · obtain ⟨b, hb⟩ := isSpotOccupied_total st.Flights crew.Status f.Typ i f hf
    simp only [hb]
    cases b with
    | true => exact ⟨st, by simp, hw⟩
    | false =>
      obtain ⟨w1, hm, hw1⟩ := mark_total st.crewHasAFlightThisWeek crew.Status (crewName crew) hw
        (by
          rcases hs with h | h | h | h
          · exact Or.inl h
          · exact Or.inr (Or.inl h)
          · exact Or.inr (Or.inr (Or.inl h))
          · exact Or.inr (Or.inr (Or.inr h)))
      have hres := weekComplete_resets g (clearWhenEveryoneFlew g w1)
      have hass : assignCrew g i st crew = .ok { st with
          Flights := st.Flights.set i (placeCrew f crew)
          crewHasFlight := setInsert st.crewHasFlight (crewName crew)
          crewHasAFlightThisWeek := ninetyPercentResets g (clearWhenEveryoneFlew g w1) } := by
        unfold assignCrew
        simp only [hf, hm]
      simp only [Bool.false_eq_true, if_false]
      rw [hass]
      refine ⟨_, rfl, ?_⟩
      dsimp only
      exact hres
  · exact ⟨st, rfl, hw⟩

theorem crewLoop_total (g : Globals) (i : Nat) (s : List CrewAvailability)
    (hs : ∀ c ∈ s, validStatus c) :
    ∀ st, weekComplete st.crewHasAFlightThisWeek → i < st.Flights.length →
      ∃ st1, crewLoop g i s st = .ok st1 ∧ weekComplete st1.crewHasAFlightThisWeek ∧
        st1.Flights.map slotShape = st.Flights.map slotShape := by
  induction s with
  | nil =>
    intro st hw _
    exact ⟨st, rfl, hw, rfl⟩
  | cons c rest ih =>
    intro st hw hi
    obtain ⟨st1, h1, hw1⟩ := considerCrew_total g i st c hw hi (hs c (List.mem_cons_self _ _))
    have hsh := considerCrew_shape g i st st1 c h1
    have hlen : st1.Flights.length = st.Flights.length := by
      simpa using congrArg List.length hsh
    obtain ⟨st2, h2, hw2, hsh2⟩ := ih (fun c hc => hs c (List.mem_cons_of_mem _ hc)) st1 hw1
      (by omega)
    exact ⟨st2, by simp [crewLoop, h1, h2], hw2, hsh2.trans hsh⟩

theorem processFlight_total (g : Globals) (s : List CrewAvailability) (i : Nat)
    (hs : ∀ c ∈ s, validStatus c) (st : AllocState)
    (hw : weekComplete st.crewHasAFlightThisWeek) (hi : i < st.Flights.length) :
    ∃ st1, processFlight g s i st = .ok st1 ∧ weekComplete st1.crewHasAFlightThisWeek ∧
      st1.Flights.map slotShape = st.Flights.map slotShape := by
  obtain ⟨f, hf⟩ : ∃ f, st.Flights[i]? = some f := ⟨_, List.getElem?_eq_getElem hi⟩
  obtain ⟨st1, h1, hw1, hsh⟩ := crewLoop_total g i s hs (resetDay st f)
    (by rw [resetDay_week]; exact hw) (by rw [resetDay_flights]; exact hi)
  refine ⟨st1, ?_, hw1, by rw [hsh, resetDay_flights]⟩
  unfold processFlight
  simp only [hf]
  exact h1

theorem flightLoop_total (g : Globals) (s : List CrewAvailability)
    (hs : ∀ c ∈ s, validStatus c) :
    ∀ n i st, weekComplete st.crewHasAFlightThisWeek → i + n ≤ st.Flights.length →
      ∃ st1, flightLoop g s i n st = .ok st1 ∧
        st1.Flights.map slotShape = st.Flights.map slotShape := by
  intro n
  induction n with
  | zero =>
    intro i st _ _
    exact ⟨st, rfl, rfl⟩
  | succ n ih =>
    intro i st hw hi
    obtain ⟨st1, h1, hw1, hsh⟩ := processFlight_total g s i hs st hw (by omega)
    have hlen : st1.Flights.length = st.Flights.length := by
      simpa using congrArg List.length hsh
    obtain ⟨st2, h2, hsh2⟩ := ih (i + 1) st1 hw1 (by omega)
    exact ⟨st2, by simp [flightLoop, h1, h2], hsh2.trans hsh⟩

/-- C7: for a crew list whose statuses are all among PC, PI, FE and CE,
`calculateFlightSchedules` returns an error, and with it no schedule, exactly
when some string of the date list does not parse; when every date parses it
returns a schedule that has every generated slot, with its type, date and
time, whatever crew is there to fill it. -/
theorem calculateFlightSchedules_error_iff (g : Globals) (s : List CrewAvailability)
    (hs : ∀ c ∈ s, c.Status = "PC" ∨ c.Status = "PI" ∨ c.Status = "FE" ∨ c.Status = "CE") :
    ((∃ e, calculateFlightSchedules g s = .error e) ↔
        ∃ date ∈ g.dates, parseInputDate date = none)
    ∧ (∀ e, calculateFlightSchedules g s = .error e →
        ∃ date ∈ g.dates, parseInputDate date = none ∧ e = .parseError date)
    ∧ ((∀ date ∈ g.dates, parseInputDate date ≠ none) →
        ∃ (ds : List Date) (fs : List Flight), g.dates.map parseInputDate = ds.map some ∧
          calculateFlightSchedules g s = .ok fs ∧
          fs.map slotShape = (ds.flatMap (dateBlock g)).map slotShape) := by
  rcases initializeLoop_cases g g.dates [] with ⟨ds, hds, hl⟩ | ⟨date, hm, hn, hl⟩
  · have hinit : initializeFlightSchedules g = .ok (ds.flatMap (dateBlock g)) := by
      rw [initializeFlightSchedules, hl, List.nil_append]
    obtain ⟨st1, h1, hsh⟩ := flightLoop_total g s hs (ds.flatMap (dateBlock g)).length 0
      (initialState (ds.flatMap (dateBlock g))) weekComplete_initial (by simp [initialState])
    have hcalc : calculateFlightSchedules g s = .ok st1.Flights := by
      simp only [initialState] at h1
      simp only [calculateFlightSchedules, hinit, h1]
    have hall : ∀ date ∈ g.dates, parseInputDate date ≠ none := by
      intro date hd hnone
      have : parseInputDate date ∈ g.dates.map parseInputDate := List.mem_map_of_mem _ hd
      rw [hds, hnone] at this
      simp at this
    refine ⟨⟨?_, ?_⟩, ?_, ?_⟩
    · rintro ⟨e, he⟩
      rw [hcalc] at he
      cases he
    · rintro ⟨date, hd, hnone⟩
      exact absurd hnone (hall date hd)
    · intro e he
      rw [hcalc] at he
      cases he
    · intro _
      exact ⟨ds, st1.Flights, hds, hcalc, hsh⟩
  · have hinit : initializeFlightSchedules g = .error (.parseError date) := by
      rw [initializeFlightSchedules, hl]
    have hcalc : calculateFlightSchedules g s = .error (.parseError date) := by
      simp [calculateFlightSchedules, hinit]
    refine ⟨⟨fun _ => ⟨date, hm, hn⟩, fun _ => ⟨_, hcalc⟩⟩, ?_, ?_⟩
    · intro e he
      rw [hcalc] at he
      injection he with he
      exact ⟨date, hm, hn, he.symm⟩
    · intro hall
      exact absurd hn (hall date hm)

/-- C7 on the scenario crew: with a malformed second date the run is an error. -/
theorem calculateFlightSchedules_error_iff_witness :
    (∀ c ∈ scenarioCrew,
        c.Status = "PC" ∨ c.Status = "PI" ∨ c.Status = "FE" ∨ c.Status = "CE")
    ∧ ((∃ e, calculateFlightSchedules { scenarioGlobals with dates := ["1/1/2024", "2/30/2024"] }
          scenarioCrew = .error e) ↔
        ∃ date ∈ ["1/1/2024", "2/30/2024"], parseInputDate date = none) :=
  ⟨by decide,
   (calculateFlightSchedules_error_iff { scenarioGlobals with dates := ["1/1/2024", "2/30/2024"] }
      scenarioCrew (by decide)).1⟩

/-! ### One flight a day -/

theorem mark_ok_validStatus (w w1 : WeekMap) (status name : String)
    (h : w.mark status name = .ok w1) :
    status = "PC" ∨ status = "PI" ∨ status = "FE" ∨ status = "CE" := by
  unfold WeekMap.mark at h
  cases hg : w.get status with
  | none => simp [hg] at h
  | some s =>
    unfold WeekMap.get at hg
    split_ifs at hg with h1 h2 h3 h4
    · exact Or.inr (Or.inl h1)
    · exact Or.inl h2
    · exact Or.inr (Or.inr (Or.inl h3))
    · exact Or.inr (Or.inr (Or.inr h4))

theorem memberName_newCrewMember (c : CrewAvailability) :
    memberName (newCrewMember c) = crewName c := rfl

/-- Placing a crew member on a free spot adds exactly its name to the slot. -/
theorem slotNames_placeCrew (fs : List Flight) (i : Nat) (f : Flight) (c : CrewAvailability)
    (ty : String) (hf : fs[i]? = some f) (ho : isSpotOccupied fs c.Status ty i = .ok false)
    (hs : c.Status = "PC" ∨ c.Status = "PI" ∨ c.Status = "FE" ∨ c.Status = "CE") :
    (slotNames (placeCrew f c)).Perm (crewName c :: slotNames f) := by
  simp only [isSpotOccupied, hf] at ho
  apply List.perm_iff_count.2
  intro a
  rcases hs with h | h | h | h
  · simp [h] at ho
    simp [slotNames, occupants, placeCrew, h, ho, memberName_newCrewMember, List.count_cons]
  · simp [slotNames, occupants, placeCrew, h, memberName_newCrewMember, List.count_cons]
    omega
  · simp [h] at ho
    simp [slotNames, occupants, placeCrew, h, ho, memberName_newCrewMember, List.count_cons]
    omega
  · simp [slotNames, occupants, placeCrew, h, memberName_newCrewMember, List.count_cons]
    omega

theorem mem_setInsert (s : List String) (n x : String) :
    x ∈ setInsert s n ↔ x ∈ s ∨ x = n := by
  unfold setInsert
  split_ifs with h
  · constructor
    · exact Or.inl
    · rintro (h1 | rfl)
      · exact h1
      · exact h
  · simp

theorem getElem?_set_cases {α : Type} (l : List α) (i j : Nat) (a x : α)
    (h : (l.set i a)[j]? = some x) : (j = i ∧ x = a) ∨ (j ≠ i ∧ l[j]? = some x) := by
  rw [List.getElem?_set] at h
  split_ifs at h with h1 h2
  · injection h with h
    exact Or.inl ⟨h1.symm, h.symm⟩
  · exact Or.inr ⟨fun hc => h1 hc.symm, h⟩

/-- A step of the crew loop of slot `i` keeps the daily booking invariant. -/
theorem dayInv_step (g : Globals) (L : List String) (i : Nat) (st st1 : AllocState)
    (crew : CrewAvailability) (hinv : DayInv L i st) (h : considerCrew g i st crew = .ok st1) :
    DayInv L i st1 := by
  rcases considerCrew_ok g i st st1 crew h with rfl | ⟨flight, w, hf, he, ho, hm, rfl⟩
  · exact hinv
  · have hmem : flight ∈ st.Flights := List.getElem?_mem hf
    have hdate : flight.Date = st.currentFlightDate := by
      have h1 := hinv.current
      rw [← hinv.labels, List.getElem?_map, hf] at h1
      simpa using h1
    have hn : crewName crew ∉ st.crewHasFlight := ((eligible_iff _ _ _).1 he).2.1
    have hperm := slotNames_placeCrew st.Flights i flight crew flight.Typ hf ho
      (mark_ok_validStatus _ _ _ _ hm)
    have hold : crewName crew ∉ slotNames flight :=
      fun hc => hn (hinv.booked flight hmem hdate _ hc)
    have hnew : ∀ n, n ∈ slotNames (placeCrew flight crew) ↔
        n = crewName crew ∨ n ∈ slotNames flight := by
      intro n
      rw [hperm.mem_iff, List.mem_cons]
    refine ⟨?_, hinv.current, ?_, ?_, ?_, ?_⟩
    · rw [← hinv.labels]
      exact map_set_same _ _ _ _ _ hf (placeCrew_date flight crew)
    · intro f hfm
      rcases mem_set_cases _ _ _ _ hfm with rfl | hfm
      · rw [hperm.nodup_iff, List.nodup_cons]
        exact ⟨hold, hinv.nodup flight hmem⟩
      · exact hinv.nodup f hfm
    · intro j k fj fk hjk hj hk hd n hnj hnk
      rcases getElem?_set_cases _ _ _ _ _ hj with ⟨hji, hfj⟩ | ⟨hji, hj1⟩
      · rcases getElem?_set_cases _ _ _ _ _ hk with ⟨hki, -⟩ | ⟨-, hk1⟩
        · exact hjk (hji.trans hki.symm)
        · subst hfj
          rw [placeCrew_date] at hd
          rcases (hnew n).1 hnj with rfl | hnj
          · exact hn (hinv.booked fk (List.getElem?_mem hk1) (hd ▸ hdate) _ hnk)
          · exact hinv.disjoint i k flight fk (hji ▸ hjk) hf hk1 hd n hnj hnk
      · rcases getElem?_set_cases _ _ _ _ _ hk with ⟨hki, hfk⟩ | ⟨-, hk1⟩
        · subst hfk
          rw [placeCrew_date] at hd
          rcases (hnew n).1 hnk with rfl | hnk
          · exact hn (hinv.booked fj (List.getElem?_mem hj1) (hd.trans hdate) _ hnj)
          · exact hinv.disjoint j i fj flight hji hj1 hf hd n hnj hnk
        · exact hinv.disjoint j k fj fk hjk hj1 hk1 hd n hnj hnk
    · intro f hfm hfd n hnf
      rw [mem_setInsert]
      rcases mem_set_cases _ _ _ _ hfm with rfl | hfm
      · rcases (hnew n).1 hnf with rfl | hnf
        · exact Or.inr rfl
        · exact Or.inl (hinv.booked flight hmem hdate n hnf)
      · exact Or.inl (hinv.booked f hfm hfd n hnf)
    · intro j f hij hj
      rcases getElem?_set_cases _ _ _ _ _ hj with ⟨rfl, -⟩ | ⟨-, hj⟩
      · omega
      · exact hinv.later j f hij hj

theorem contiguousLabels_blocks (bs : List (String × Nat)) (h : (bs.map Prod.fst).Nodup) :
    contiguousLabels (bs.flatMap (fun b => List.replicate b.2 b.1)) := by
  induction bs with
  | nil =>
    intro j i _ _ hne
    simp at hne
  | cons b rest ih =>
    rw [List.map_cons, List.nodup_cons] at h
    have ih1 := ih h.2
    have hnot : ∀ k : Nat, (rest.flatMap (fun b => List.replicate b.2 b.1))[k]? ≠ some b.1 := by
      intro k hk
      have hm := List.getElem?_mem hk
      rw [List.mem_flatMap] at hm
      obtain ⟨c, hc, hcm⟩ := hm
      have := (List.mem_replicate.1 hcm).2
      exact h.1 (this ▸ List.mem_map_of_mem Prod.fst hc)
    intro j i hji he hne
    rw [List.flatMap_cons] at he hne ⊢
    by_cases hi : i < b.2
    · rw [List.getElem?_append_left (show i - 1 < (List.replicate b.2 b.1).length by simp; omega),
        List.getElem?_append_left (show i < (List.replicate b.2 b.1).length by simpa using hi)]
      rw [List.getElem?_replicate, List.getElem?_replicate]
      simp [hi, show i - 1 < b.2 by omega]
    · have hi1 : (List.replicate b.2 b.1).length ≤ i := by simp; omega
      rw [List.getElem?_append_right hi1] at he hne ⊢
      by_cases hj : j < b.2
      · rw [List.getElem?_append_left (by simpa using hj), List.getElem?_replicate] at he
        simp only [hj, if_true] at he
        exact absurd he.symm (hnot _)
      · have hj1 : (List.replicate b.2 b.1).length ≤ j := by simp; omega
        rw [List.getElem?_append_right hj1] at he
        simp only [List.length_replicate] at he hne hi1 hj1 ⊢
        have := ih1 (j - b.2) (i - b.2) (by omega) he hne
        rw [List.getElem?_append_right (by simp; omega)]
        simp only [List.length_replicate]
        rw [show i - 1 - b.2 = i - b.2 - 1 by omega]
        exact this

theorem dateBlock_labels (g : Globals) (d : Date) :
    (dateBlock g d).map Flight.Date =
      List.replicate (dateBlock g d).length (formatFullDate d) := by
  apply List.eq_replicate_iff.2
  refine ⟨by simp, ?_⟩
  intro b hb
  rw [List.mem_map] at hb
  obtain ⟨f, hf, rfl⟩ := hb
  exact (mem_dayFlights_empty _ _ f hf).1

theorem schedule_labels (g : Globals) (ds : List Date) :
    (ds.flatMap (dateBlock g)).map Flight.Date =
      (ds.map (fun d => (formatFullDate d, (dateBlock g d).length))).flatMap
        (fun b => List.replicate b.2 b.1) := by
  induction ds with
  | nil => rfl
  | cons d rest ih =>
    simp only [List.flatMap_cons, List.map_append, List.map_cons, ih, dateBlock_labels]

theorem resetDay_crewHasFlight (st : AllocState) (flight : Flight) :
    (resetDay st flight).crewHasFlight =
      if st.currentFlightDate ≠ flight.Date then [] else st.crewHasFlight := by
  unfold resetDay
  split_ifs <;> rfl

/-- Processing slot `i` takes the loop invariant from `i` to `i + 1`. -/
theorem dayLoopInv_step (g : Globals) (s : List CrewAvailability) (L : List String)
    (hL : contiguousLabels L) (i : Nat) (st st1 : AllocState) (hinv : DayLoopInv L i st)
    (h : processFlight g s i st = .ok st1) : DayLoopInv L (i + 1) st1 := by
  obtain ⟨flight, hf, hc⟩ := processFlight_ok g s i st st1 h
  have hLi : L[i]? = some flight.Date := by
    rw [← hinv.labels, List.getElem?_map, hf]
    rfl
  have hstart : DayInv L i (resetDay st flight) := by
    refine ⟨by rw [resetDay_flights]; exact hinv.labels, hLi, ?_, ?_, ?_, ?_⟩
    · rw [resetDay_flights]
      exact hinv.nodup
    · rw [resetDay_flights]
      exact hinv.disjoint
    · rw [resetDay_flights, resetDay_crewHasFlight]
      intro f hfm hfd n hn
      rw [resetDay_date] at hfd
      split_ifs with hcur
      · exfalso
        obtain ⟨j, hj⟩ := List.getElem?_of_mem hfm
        by_cases hji : i ≤ j
        · rw [hinv.empty j f hji hj] at hn
          cases hn
        · have hLj : L[j]? = some f.Date := by
            rw [← hinv.labels, List.getElem?_map, hj]
            rfl
          have hcont := hL j i (by omega) (by rw [hLj, hLi, hfd]) (by rw [hLi]; simp)
          rcases hinv.previous with h0 | hprev
          · omega
          · rw [hprev, hLi] at hcont
            injection hcont with hcont
            exact hcur hcont
      · rw [ne_eq, not_not] at hcur
        exact hinv.booked f hfm (hfd.trans hcur.symm) n hn
    · intro j f hij hj
      rw [resetDay_flights] at hj
      exact hinv.empty j f (by omega) hj
  have hend := crewLoop_invariant g i (DayInv L i) s
    (fun a b c _ ha hs => dayInv_step g L i a b c ha hs) _ st1 hstart hc
  exact ⟨hend.labels, Or.inr (by simpa using hend.current), hend.nodup, hend.disjoint,
    hend.booked, fun j f hij hj => hend.later j f (by omega) hj⟩

theorem slotNames_of_empty (f : Flight) (h : f.PC = none ∧ f.PIs = [] ∧ f.FE = none ∧ f.CEs = []) :
    slotNames f = [] := by
  obtain ⟨h1, h2, h3, h4⟩ := h
  simp [slotNames, occupants, h1, h2, h3, h4]

theorem dayLoopInv_initial (flights : List Flight)
    (hempty : ∀ f ∈ flights, slotNames f = []) :
    DayLoopInv (flights.map Flight.Date) 0 (initialState flights) := by
  refine ⟨rfl, Or.inl rfl, ?_, ?_, ?_, ?_⟩
  · intro f hf
    rw [hempty f hf]
    exact List.nodup_nil
  · intro j k fj fk _ hj _ _ n hn
    rw [hempty fj (List.getElem?_mem hj)] at hn
    cases hn
  · intro f hf _ n hn
    rw [hempty f hf] at hn
    cases hn
  · intro j f _ hj
    exact hempty f (List.getElem?_mem hj)

/-- C2: when the dates of the list parse and no two of them have the same
label, as it is for the seven days of a week, no crew name holds two role
positions on one date in the returned schedule: the names of the occupants of
a slot are pairwise different, and two different slots of the same date have no
name in common. -/
theorem one_flight_a_day (g : Globals) (s : List CrewAvailability) (ds : List Date)
    (fs : List Flight) (hparse : g.dates.map parseInputDate = ds.map some)
    (hdistinct : (ds.map formatFullDate).Nodup)
    (h : calculateFlightSchedules g s = .ok fs) :
    (∀ f ∈ fs, (slotNames f).Nodup) ∧
    (∀ (j k : Nat) (fj fk : Flight), j ≠ k → fs[j]? = some fj → fs[k]? = some fk →
      fj.Date = fk.Date → ∀ n ∈ slotNames fj, n ∉ slotNames fk) := by
  obtain ⟨flights, st, hi, hl, rfl⟩ := calculate_ok g s fs h
  have hflights : flights = ds.flatMap (dateBlock g) := by
    rw [initializeFlightSchedules, initializeLoop_ok g ds g.dates [] hparse] at hi
    injection hi with hi
    rw [← hi, List.nil_append]
  have hL : contiguousLabels (flights.map Flight.Date) := by
    rw [hflights, schedule_labels]
    apply contiguousLabels_blocks
    rw [List.map_map]
    exact hdistinct
  have hfin := flightLoop_invariant g s (DayLoopInv (flights.map Flight.Date))
    (fun i a b ha hp => dayLoopInv_step g s _ hL i a b ha hp) flights.length 0 _ st
    (dayLoopInv_initial flights (fun f hf =>
      slotNames_of_empty f (initialize_empty g flights
        (by rw [initializeFlightSchedules, initializeLoop_ok g ds g.dates [] hparse, hflights,
          List.nil_append]) f hf))) hl
  exact ⟨hfin.nodup, hfin.disjoint⟩

/-! ### The claims on the scenario inputs -/

/-- C1 on the scenario: the first TRAINING slot of the first day, at the odd
index 1, holds no PI and three CEs. -/
theorem calculateFlightSchedules_within_quota_witness :
    calculateFlightSchedules scenarioGlobals scenarioCrew = .ok scenarioSchedule
    ∧ scenarioSchedule[1]? = some
        { Typ := "TRAINING", Date := "Jan 01 24", Time := "0800", PC := none, PIs := [],
          FE := none, CEs := scenarioCEs }
    ∧ (("TRAINING" : String) = "TRAINING" → 1 % 2 = 1 →
        ([] : List CrewMember).length ≤ 1 ∧ scenarioCEs.length ≤ 3) :=
  ⟨by decide, by decide,
   (calculateFlightSchedules_within_quota scenarioGlobals scenarioCrew scenarioSchedule
      (by decide) 1
      { Typ := "TRAINING", Date := "Jan 01 24", Time := "0800", PC := none, PIs := [],
        FE := none, CEs := scenarioCEs } (by decide)).2.2.2.2.2⟩

/-- C2 on the scenario: in every slot of the week the names are pairwise
different. -/
theorem one_flight_a_day_witness :
    scenarioGlobals.dates.map parseInputDate = scenarioDates.map some
    ∧ (scenarioDates.map formatFullDate).Nodup
    ∧ calculateFlightSchedules scenarioGlobals scenarioCrew = .ok scenarioSchedule
    ∧ ∀ f ∈ scenarioSchedule, (slotNames f).Nodup :=
  ⟨by decide, by decide, by decide,
   (one_flight_a_day scenarioGlobals scenarioCrew scenarioDates scenarioSchedule (by decide)
      (by decide) (by decide)).1⟩

/-- C3 on the scenario: the PC of the first slot is a copy of a crew record of
status PC that is available on 1 January. -/
theorem occupants_from_crew_witness :
    calculateFlightSchedules scenarioGlobals scenarioCrew = .ok scenarioSchedule
    ∧ ∀ f ∈ scenarioSchedule, ∀ m, f.PC = some m → fromCrew scenarioCrew "PC" f.Date m :=
  ⟨by decide, fun f hf =>
    (occupants_from_crew scenarioGlobals scenarioCrew scenarioSchedule (by decide) f hf).1.1⟩

/-! ### The reset of the rotation sets -/

/-- A step keeps the four keys of the outer map, whatever the statuses. -/
theorem weekComplete_step (g : Globals) (i : Nat) (st st1 : AllocState) (crew : CrewAvailability)
    (hw : weekComplete st.crewHasAFlightThisWeek) (h : considerCrew g i st crew = .ok st1) :
    weekComplete st1.crewHasAFlightThisWeek := by
  rcases considerCrew_ok g i st st1 crew h with rfl | ⟨flight, w, -, -, -, -, rfl⟩
  · exact hw
  · dsimp only
    exact weekComplete_resets g _

/-- The four keys are present in every state of the loop over the slots. -/
theorem weekComplete_flightLoop (g : Globals) (s : List CrewAvailability) (n i : Nat)
    (st st1 : AllocState) (hw : weekComplete st.crewHasAFlightThisWeek)
    (h : flightLoop g s i n st = .ok st1) : weekComplete st1.crewHasAFlightThisWeek :=
  flightLoop_invariant g s (fun _ st => weekComplete st.crewHasAFlightThisWeek)
    (fun i a b ha hp => by
      obtain ⟨flight, -, hc⟩ := processFlight_ok g s i a b hp
      refine crewLoop_invariant g i (fun st => weekComplete st.crewHasAFlightThisWeek) s
        (fun x y c _ hx hs => weekComplete_step g i x y c hx hs) (resetDay a flight) b ?_ hc
      show weekComplete (resetDay a flight).crewHasAFlightThisWeek
      rw [resetDay_week]
      exact ha) n i st st1 hw h

/-! ### Priority of the crew list -/

theorem crewLoop_append (g : Globals) (i : Nat) (l1 l2 : List CrewAvailability) :
    ∀ st, crewLoop g i (l1 ++ l2) st =
      match crewLoop g i l1 st with
      | .error e => .error e
      | .ok st1 => crewLoop g i l2 st1 := by
  induction l1 with
  | nil =>
    intro st
    rfl
  | cons c rest ih =>
    intro st
    simp only [List.cons_append, crewLoop]
    cases considerCrew g i st c with
    | error e => rfl
    | ok st1 => exact ih st1

theorem flightLoop_add (g : Globals) (s : List CrewAvailability) (m n : Nat) :
    ∀ i st, flightLoop g s i (m + n) st =
      match flightLoop g s i m st with
      | .error e => .error e
      | .ok st1 => flightLoop g s (i + m) n st1 := by
  induction m with
  | zero =>
    intro i st
    simp [flightLoop]
  | succ m ih =>
    intro i st
    rw [show m + 1 + n = (m + n) + 1 by omega]
    simp only [flightLoop]
    cases processFlight g s i st with
    | error e => rfl
    | ok st1 =>
      simp only
      rw [ih (i + 1) st1, show i + 1 + m = i + (m + 1) by omega]

/-- A property of the slots kept by every step is kept by the loop over the
slots. -/
theorem flightLoop_flights_invariant (g : Globals) (s : List CrewAvailability)
    (P : List Flight → Prop)
    (hstep : ∀ i st st1 crew, P st.Flights → considerCrew g i st crew = .ok st1 → P st1.Flights)
    (n i : Nat) (st st1 : AllocState) (h0 : P st.Flights)
    (h : flightLoop g s i n st = .ok st1) : P st1.Flights :=
  flightLoop_invariant g s (fun _ st => P st.Flights) (by
    intro i st st1 hP hp
    obtain ⟨flight, -, hc⟩ := processFlight_ok g s i st st1 hp
    refine crewLoop_invariant g i (fun st => P st.Flights) s (fun a b c _ => hstep i a b c)
      (resetDay st flight) st1 ?_ hc
    show P (resetDay st flight).Flights
    rw [resetDay_flights]
    exact hP) n i st st1 h0 h

theorem crewLoop_flights_invariant (g : Globals) (i : Nat) (s : List CrewAvailability)
    (P : List Flight → Prop)
    (hstep : ∀ st st1 crew, P st.Flights → considerCrew g i st crew = .ok st1 → P st1.Flights)
    (st st1 : AllocState) (h0 : P st.Flights) (h : crewLoop g i s st = .ok st1) :
    P st1.Flights :=
  crewLoop_invariant g i (fun st => P st.Flights) s (fun a b c _ => hstep a b c) st st1 h0 h

/-- The occupancy test does not read its type parameter. -/
theorem isSpotOccupied_type (fs : List Flight) (status ty ty1 : String) (i : Nat) :
    isSpotOccupied fs status ty i = isSpotOccupied fs status ty1 i := rfl

/-- Writing a crew member of another status into the slot leaves the test of
the status `R` as it was. -/
theorem isSpotOccupied_set_other (fs : List Flight) (i : Nat) (f : Flight) (c : CrewAvailability)
    (R ty : String) (hf : fs[i]? = some f) (hR : c.Status ≠ R) :
    isSpotOccupied (fs.set i (placeCrew f c)) R ty i = isSpotOccupied fs R ty i := by
  have hi : i < fs.length := by
    by_contra hc
    rw [List.getElem?_eq_none (by omega)] at hf
    cases hf
  have hset : (fs.set i (placeCrew f c))[i]? = some (placeCrew f c) := by
    rw [List.getElem?_set]
    simp [hi]
  unfold isSpotOccupied
  simp only [hset, hf, placeCrew_typ]
  unfold placeCrew
  by_cases h1 : R = "PC"
  · subst h1
    simp only [if_true]
    split_ifs <;> simp_all
  · by_cases h2 : R = "PI"
    · subst h2
      simp only [h1, if_false, if_true]
      split_ifs <;> simp_all
    · by_cases h3 : R = "FE"
      · subst h3
        simp only [h1, h2, if_false, if_true]
        split_ifs <;> simp_all
      · by_cases h4 : R = "CE"
        · subst h4
          simp only [h1, h2, h3, if_false, if_true]
          split_ifs <;> simp_all
        · simp only [h1, h2, h3, h4, if_false]

/-- Once the spot of a status is occupied on slot `i`, it stays so through the
steps of the crew loop of slot `i`. -/
theorem occupied_step (g : Globals) (i : Nat) (R ty : String) (st st1 : AllocState)
    (crew : CrewAvailability) (hocc : isSpotOccupied st.Flights R ty i = .ok true)
    (h : considerCrew g i st crew = .ok st1) : isSpotOccupied st1.Flights R ty i = .ok true := by
  rcases considerCrew_ok g i st st1 crew h with rfl | ⟨flight, w, hf, -, ho, -, rfl⟩
  · exact hocc
  · by_cases hR : crew.Status = R
    · rw [hR, isSpotOccupied_type _ _ _ ty, hocc] at ho
      cases ho
    · dsimp only
      rw [isSpotOccupied_set_other _ _ _ _ _ _ hf hR]
      exact hocc

theorem placeCrew_grows (f : Flight) (c : CrewAvailability) :
    f.PIs <+: (placeCrew f c).PIs ∧ f.CEs <+: (placeCrew f c).CEs := by
  unfold placeCrew
  split_ifs <;> simp

/-- The PI and CE lists of a slot only grow at their end, whatever slot the
step works on. -/
theorem prefix_step (g : Globals) (i j : Nat) (LP LC : List CrewMember) (st st1 : AllocState)
    (crew : CrewAvailability)
    (h0 : ∃ f, st.Flights[i]? = some f ∧ LP <+: f.PIs ∧ LC <+: f.CEs)
    (h : considerCrew g j st crew = .ok st1) :
    ∃ f, st1.Flights[i]? = some f ∧ LP <+: f.PIs ∧ LC <+: f.CEs := by
  rcases considerCrew_ok g j st st1 crew h with rfl | ⟨flight, w, hf, -, -, -, rfl⟩
  · exact h0
  · obtain ⟨f, hfi, hP, hC⟩ := h0
    dsimp only
    by_cases hji : j = i
    · subst hji
      rw [hf] at hfi
      injection hfi with hfi
      subst hfi
      have hlt : j < st.Flights.length := by
        by_contra hc
        rw [List.getElem?_eq_none (by omega)] at hf
        cases hf
      refine ⟨placeCrew flight crew, by rw [List.getElem?_set]; simp [hlt], ?_, ?_⟩
      · exact hP.trans (placeCrew_grows flight crew).1
      · exact hC.trans (placeCrew_grows flight crew).2
    · refine ⟨f, ?_, hP, hC⟩
      rw [List.getElem?_set, if_neg hji]
      exact hfi

theorem considerCrew_assign (g : Globals) (i : Nat) (st : AllocState) (c : CrewAvailability)
    (f : Flight) (hf : st.Flights[i]? = some f) (he : eligible st f.Date c = true)
    (ho : isSpotOccupied st.Flights c.Status f.Typ i = .ok false) :
    considerCrew g i st c = assignCrew g i st c := by
  unfold considerCrew
  simp only [hf, he, ho, if_true, Bool.false_eq_true, if_false]

theorem assignCrew_flights (g : Globals) (i : Nat) (st st1 : AllocState) (c : CrewAvailability)
    (f : Flight) (hf : st.Flights[i]? = some f) (h : assignCrew g i st c = .ok st1) :
    st1.Flights[i]? = some (placeCrew f c) := by
  unfold assignCrew at h
  simp only [hf] at h
  cases hm : st.crewHasAFlightThisWeek.mark c.Status (crewName c) with
  | error e => simp [hm] at h
  | ok w =>
    simp only [hm] at h
    injection h with h
    subst h
    have hlt : i < st.Flights.length := by
      by_contra hc
      rw [List.getElem?_eq_none (by omega)] at hf
      cases hf
    dsimp only
    rw [List.getElem?_set]
    simp [hlt]

theorem assignsAt_iff (st : AllocState) (i : Nat) (c : CrewAvailability) :
    assignsAt st i c = true ↔ ∃ f, st.Flights[i]? = some f ∧ eligible st f.Date c = true ∧
      isSpotOccupied st.Flights c.Status f.Typ i = .ok false := by
  unfold assignsAt
  cases hf : st.Flights[i]? with
  | none => simp
  | some f => simp

theorem eligibleAt_iff (st : AllocState) (i : Nat) (c : CrewAvailability) :
    eligibleAt st i c = true ↔ ∃ f, st.Flights[i]? = some f ∧ eligible st f.Date c = true := by
  unfold eligibleAt
  cases hf : st.Flights[i]? with
  | none => simp
  | some f => simp

theorem crewLoop_cons_ok (g : Globals) (i : Nat) (c : CrewAvailability)
    (rest : List CrewAvailability) (st st2 : AllocState)
    (h : crewLoop g i (c :: rest) st = .ok st2) :
    ∃ st1, considerCrew g i st c = .ok st1 ∧ crewLoop g i rest st1 = .ok st2 := by
  simp only [crewLoop] at h
  cases hc : considerCrew g i st c with
  | error e => simp [hc] at h
  | ok st1 => exact ⟨st1, rfl, by simpa [hc] using h⟩

theorem crewLoop_append_ok (g : Globals) (i : Nat) (l1 l2 : List CrewAvailability)
    (st st2 : AllocState) (h : crewLoop g i (l1 ++ l2) st = .ok st2) :
    ∃ st1, crewLoop g i l1 st = .ok st1 ∧ crewLoop g i l2 st1 = .ok st2 := by
  rw [crewLoop_append] at h
  cases hc : crewLoop g i l1 st with
  | error e => simp [hc] at h
  | ok st1 => exact ⟨st1, rfl, by simpa [hc] using h⟩

theorem flightLoop_add_ok (g : Globals) (s : List CrewAvailability) (m n i : Nat)
    (st st2 : AllocState) (h : flightLoop g s i (m + n) st = .ok st2) :
    ∃ st1, flightLoop g s i m st = .ok st1 ∧ flightLoop g s (i + m) n st1 = .ok st2 := by
  rw [flightLoop_add] at h
  cases hc : flightLoop g s i m st with
  | error e => simp [hc] at h
  | ok st1 => exact ⟨st1, rfl, by simpa [hc] using h⟩

theorem flightLoop_shape (g : Globals) (s : List CrewAvailability) (n i : Nat)
    (st st1 : AllocState) (h : flightLoop g s i n st = .ok st1) :
    st1.Flights.map slotShape = st.Flights.map slotShape :=
  flightLoop_flights_invariant g s (fun fs => fs.map slotShape = st.Flights.map slotShape)
    (fun j a b c ha hs => (considerCrew_shape g j a b c hs).trans ha) n i st st1 rfl h

theorem flightLoop_length (g : Globals) (s : List CrewAvailability) (n i : Nat)
    (st st1 : AllocState) (h : flightLoop g s i n st = .ok st1) :
    st1.Flights.length = st.Flights.length := by
  simpa using congrArg List.length (flightLoop_shape g s n i st st1 h)

theorem slotStart_ok (g : Globals) (s : List CrewAvailability) (flights : List Flight) (i : Nat)
    (st0 : AllocState) (h : slotStart g s flights i = .ok st0) :
    ∃ st f, flightLoop g s 0 i (initialState flights) = .ok st ∧ st.Flights[i]? = some f ∧
      st0 = resetDay st f := by
  unfold slotStart at h
  cases hl : flightLoop g s 0 i (initialState flights) with
  | error e => simp [hl] at h
  | ok st =>
    simp only [hl] at h
    cases hf : st.Flights[i]? with
    | none => simp [hf] at h
    | some f =>
      simp only [hf] at h
      injection h with h
      exact ⟨st, f, rfl, hf, h.symm⟩

/-! ### The scenario of one PC -/

theorem clearWhenEveryoneFlew_keep (g : Globals) (w : WeekMap) (hw : weekComplete w)
    (hfull : g.fullCrew.length ≠ 4) : clearWhenEveryoneFlew g w = w := by
  unfold clearWhenEveryoneFlew
  rw [weekComplete_len w hw, if_neg hfull]

theorem resetSet_one_keep (l : List String) (n : String) (hn : n ∈ l) :
    resetSet 1 (some l) = some l := by
  have hlen : 0 < l.length := List.length_pos_of_mem hn
  unfold resetSet ninetyPercent setLen
  simp only [Option.getD_some]
  rw [if_neg]
  simp only [decide_eq_true_eq]
  omega

theorem resetSet_nil (k : Nat) : resetSet k (some []) = some [] := by
  unfold resetSet
  split_ifs <;> rfl

theorem mark_complete (w w1 : WeekMap) (status name : String) (hw : weekComplete w)
    (hm : w.mark status name = .ok w1) : weekComplete w1 := by
  obtain ⟨w2, hm2, hw2⟩ := mark_total w status name hw (mark_ok_validStatus _ _ _ _ hm)
  rw [hm] at hm2
  injection hm2 with hm2
  exact hm2 ▸ hw2

theorem mark_other_PC (w w1 : WeekMap) (status name : String) (hs : status ≠ "PC")
    (hm : w.mark status name = .ok w1) : w1.PC = w.PC := by
  unfold WeekMap.mark at hm
  cases hg : w.get status with
  | none => simp [hg] at hm
  | some l =>
    simp only [hg] at hm
    split_ifs at hm <;> (injection hm with hm; subst hm; rfl)

theorem placeCrew_other_PC (f : Flight) (c : CrewAvailability) (hs : c.Status ≠ "PC") :
    (placeCrew f c).PC = f.PC := by
  unfold placeCrew
  split_ifs <;> first | rfl | contradiction

theorem crewLoop_shape (g : Globals) (i : Nat) (s : List CrewAvailability)
    (st st1 : AllocState) (h : crewLoop g i s st = .ok st1) :
    st1.Flights.map slotShape = st.Flights.map slotShape :=
  crewLoop_flights_invariant g i s (fun fs => fs.map slotShape = st.Flights.map slotShape)
    (fun a b c ha hs => (considerCrew_shape g i a b c hs).trans ha) st st1 rfl h

theorem getElem?_of_shape (fs gs : List Flight) (i : Nat) (f : Flight)
    (h : fs.map slotShape = gs.map slotShape) (hf : gs[i]? = some f) :
    ∃ f1, fs[i]? = some f1 ∧ f1.Typ = f.Typ ∧ f1.Date = f.Date ∧ f1.Time = f.Time := by
  have h1 : (fs.map slotShape)[i]? = (gs.map slotShape)[i]? := by rw [h]
  rw [List.getElem?_map, List.getElem?_map, hf] at h1
  cases hfs : fs[i]? with
  | none => simp [hfs] at h1
  | some f1 =>
    rw [hfs] at h1
    simp only [Option.map_some', Option.some.injEq, slotShape, Prod.mk.injEq] at h1
    exact ⟨f1, rfl, h1.1, h1.2.1, h1.2.2⟩

/-- C8, the claim on the scenario inputs: the run returns the schedule
`scenarioSchedule`, in which the first TRAINING slot of the first day, at index
1, has no PC and no PI although the quota of PIs is 1 there, and the
MAINTENANCE slot of the second day, at index 4, has no PC either. -/
theorem scenario_counterexample :
    calculateFlightSchedules scenarioGlobals scenarioCrew = .ok scenarioSchedule
    ∧ (∃ f, scenarioSchedule[1]? = some f ∧ f.Typ = "TRAINING" ∧ f.Date = "Jan 01 24"
        ∧ f.PC = none ∧ f.PIs.length = 0 ∧ f.PIs.length ≠ 1)
    ∧ (∃ f, scenarioSchedule[4]? = some f ∧ f.Typ = "MAINTENANCE" ∧ f.Date = "Jan 02 24"
        ∧ f.PC = none ∧ f.PC ≠ some ⟨"Alice", "Smith", "CPT", "PC"⟩) :=
  ⟨by decide, ⟨_, rfl, by decide, by decide, by decide, by decide, by decide⟩,
    ⟨_, rfl, by decide, by decide, by decide, by decide⟩⟩

/-! ### Days with more than three normal flights -/

theorem flightTypesByIndex_beyond (p : Nat) (hp : 7 ≤ p) : flightTypesByIndex p = "" := by
  obtain ⟨q, rfl⟩ : ∃ q, p = q + 7 := ⟨p - 7, by omega⟩
  rfl

theorem timesByIndex_beyond (p : Nat) (hp : 7 ≤ p) : timesByIndex p = "" := by
  obtain ⟨q, rfl⟩ : ∃ q, p = q + 7 := ⟨p - 7, by omega⟩
  rfl

/-- C13: a day with more than 3 normal flights, the count plus four staying
below 2^63, the range of a Go `int`, has, at every position `p` from 7 on, a
slot whose type and time are empty; on a slot of empty type
`isSpotOccupied` is false for PI and for CE whatever the lists hold, so that a
PI or CE that passes the eligibility test is appended to the list of the slot;
and on one day with four normal flights and eleven PIs the last slot of the
returned schedule holds three PIs. -/
theorem untyped_slot_unbounded :
    (∀ (g : Globals) (ds : List Date) (k : Nat) (d : Date) (p : Nat),
      g.dates.map parseInputDate = ds.map some → ds[k]? = some d →
      3 < numFlights g (formatInputDate d) →
      numFlights g (formatInputDate d) + 4 < 9223372036854775808 → 7 ≤ p →
      (p : Int) < numFlights g (formatInputDate d) + 4 →
      ∃ fs, initializeFlightSchedules g = .ok fs ∧
        fs[dayOffset g ds k + p]? =
          some { Typ := "", Date := formatFullDate d, Time := "",
                 PC := none, PIs := [], FE := none, CEs := [] })
    ∧ (∀ (fs : List Flight) (i : Nat) (f : Flight) (ty : String),
        fs[i]? = some f → f.Typ = "" →
        isSpotOccupied fs "PI" ty i = .ok false ∧ isSpotOccupied fs "CE" ty i = .ok false)
    ∧ (∀ (g : Globals) (i : Nat) (st : AllocState) (c : CrewAvailability) (f : Flight),
        st.Flights[i]? = some f → f.Typ = "" →
        weekComplete st.crewHasAFlightThisWeek →
        (c.Status = "PI" ∨ c.Status = "CE") → eligible st f.Date c = true →
        ∃ st1 f1, considerCrew g i st c = .ok st1 ∧ st1.Flights[i]? = some f1 ∧
          (c.Status = "PI" → f1.PIs = f.PIs ++ [newCrewMember c]) ∧
          (c.Status = "CE" → f1.CEs = f.CEs ++ [newCrewMember c]))
    ∧ (∃ fs f, calculateFlightSchedules longDayGlobals elevenPIs = .ok fs ∧
        fs[7]? = some f ∧ f.Typ = "" ∧ f.Time = "" ∧ f.PIs.length = 3) := by
  refine ⟨?_, ?_, ?_, ?_⟩
  · intro g ds k d p hparse hk hn hmax hp hlt
    have hj : p < (dateBlock g d).length := by
      rw [dateBlock, dayFlights_length, slotCount_eq _ (by omega) hmax]
      omega
    obtain ⟨fs, hfs, hget⟩ := initialize_getElem g ds hparse k d hk p hj
    refine ⟨fs, hfs, ?_⟩
    rw [hget]
    simp [newFlight, flightTypesByIndex_beyond p hp, timesByIndex_beyond p hp]
  · intro fs i f ty hf hty
    constructor
    · simp [isSpotOccupied, hf, hty]
    · simp [isSpotOccupied, hf, hty]
  · intro g i st c f hf hty hw hs he
    have ho : isSpotOccupied st.Flights c.Status f.Typ i = .ok false := by
      rcases hs with h | h
      · simp [isSpotOccupied, hf, hty, h]
      · simp [isSpotOccupied, hf, hty, h]
    obtain ⟨w1, hm, -⟩ := mark_total st.crewHasAFlightThisWeek c.Status (crewName c) hw
      (by
        rcases hs with h | h
        · exact Or.inr (Or.inl h)
        · exact Or.inr (Or.inr (Or.inr h)))
    have hass : assignCrew g i st c = .ok { st with
        Flights := st.Flights.set i (placeCrew f c)
        crewHasFlight := setInsert st.crewHasFlight (crewName c)
        crewHasAFlightThisWeek := ninetyPercentResets g (clearWhenEveryoneFlew g w1) } := by
      unfold assignCrew
      simp only [hf, hm]
    refine ⟨_, placeCrew f c, (considerCrew_assign g i st c f hf he ho).trans hass,
      assignCrew_flights g i st _ c f hf hass, ?_, ?_⟩
    · intro h
      simp [placeCrew, h]
    · intro h
      simp [placeCrew, h]
  · exact ⟨_, _, rfl, rfl, by decide, by decide, by decide⟩

/-- C13 on the day with four normal flights: the slot at position 7 has empty
type and time. -/
theorem untyped_slot_unbounded_witness :
    longDayGlobals.dates.map parseInputDate = [(⟨1, 1, 2024⟩ : Date)].map some
    ∧ ∃ fs, initializeFlightSchedules longDayGlobals = .ok fs ∧
        fs[dayOffset longDayGlobals [⟨1, 1, 2024⟩] 0 + 7]? =
          some { Typ := "", Date := "Jan 01 24", Time := "",
                 PC := none, PIs := [], FE := none, CEs := [] } :=
  ⟨by decide,
   untyped_slot_unbounded.1 longDayGlobals [⟨1, 1, 2024⟩] 0 ⟨1, 1, 2024⟩ 7 (by decide) (by decide)
     (by decide) (by decide) (by decide) (by decide)⟩

/-! ### Rosters of two or more -/

theorem get_ninetyPercentResets (g : Globals) (w : WeekMap) (R : String)
    (hR : R = "PC" ∨ R = "PI" ∨ R = "FE" ∨ R = "CE") :
    (ninetyPercentResets g w).get R = resetSet (rosterLength g R) (w.get R) := by
  rcases hR with rfl | rfl | rfl | rfl <;>
    simp [WeekMap.get, ninetyPercentResets, rosterLength]

theorem get_clearWhenEveryoneFlew (g : Globals) (w : WeekMap) (R : String) :
    (clearWhenEveryoneFlew g w).get R = none ∨ (clearWhenEveryoneFlew g w).get R = w.get R := by
  unfold clearWhenEveryoneFlew
  split_ifs
  · left
    simp [WeekMap.get]
  · right
    rfl

/-- The write into the rotation set of one status, seen from the key `R`. -/
theorem get_mark (w w1 : WeekMap) (status name R : String)
    (hR : R = "PC" ∨ R = "PI" ∨ R = "FE" ∨ R = "CE")
    (hm : w.mark status name = .ok w1) :
    w1.get R = if status = R then (w.get R).map (fun l => setInsert l name) else w.get R := by
  have hs := mark_ok_validStatus w w1 status name hm
  unfold WeekMap.mark at hm
  cases hg : w.get status with
  | none => simp [hg] at hm
  | some l =>
    simp only [hg] at hm
    rcases hs with rfl | rfl | rfl | rfl <;> rcases hR with rfl | rfl | rfl | rfl <;>
      simp [WeekMap.get] at hm hg ⊢ <;> subst hm <;> simp [hg]

theorem resetSet_singleton (k : Nat) (hk : 2 ≤ k) (name : String) :
    resetSet k (some [name]) = some [] := by
  unfold resetSet ninetyPercent setLen
  rw [if_pos]
  simp only [Option.getD_some, List.length_singleton, decide_eq_true_eq]
  omega

theorem resetSet_none (k : Nat) : resetSet k none = some [] := by
  unfold resetSet
  rw [if_pos (ninetyPercent_none k)]

/-- With a roster of two or more the rotation set of the role is empty after
every step. -/
theorem rotationEmpty_step (g : Globals) (R : String)
    (hR : R = "PC" ∨ R = "PI" ∨ R = "FE" ∨ R = "CE") (hroster : 2 ≤ rosterLength g R)
    (i : Nat) (st st1 : AllocState) (crew : CrewAvailability)
    (hinv : st.crewHasAFlightThisWeek.get R = some [])
    (h : considerCrew g i st crew = .ok st1) :
    st1.crewHasAFlightThisWeek.get R = some [] := by
  rcases considerCrew_ok g i st st1 crew h with rfl | ⟨flight, w, -, -, -, hm, rfl⟩
  · exact hinv
  · dsimp only
    rw [get_ninetyPercentResets g _ R hR]
    rcases get_clearWhenEveryoneFlew g w R with hc | hc
    · rw [hc, resetSet_none]
    · rw [hc, get_mark _ _ _ _ R hR hm, hinv]
      split_ifs
      · simp only [Option.map_some', setInsert, List.not_mem_nil, if_false, List.nil_append]
        exact resetSet_singleton _ hroster _
      · exact resetSet_nil _

theorem eligibleWithoutRotation_eq (R : String) (st : AllocState) (date : String)
    (crew : CrewAvailability) (hinv : st.crewHasAFlightThisWeek.get R = some []) :
    eligibleWithoutRotation R st date crew = eligible st date crew := by
  unfold eligibleWithoutRotation eligible
  by_cases hs : crew.Status = R
  · rw [hs, hinv]
    simp
  · simp [hs]

theorem considerCrewWithoutRotation_eq (R : String) (g : Globals) (i : Nat) (st : AllocState)
    (crew : CrewAvailability) (hinv : st.crewHasAFlightThisWeek.get R = some []) :
    considerCrewWithoutRotation R g i st crew = considerCrew g i st crew := by
  unfold considerCrewWithoutRotation considerCrew
  cases st.Flights[i]? with
  | none => rfl
  | some flight =>
    simp only [eligibleWithoutRotation_eq R st flight.Date crew hinv]

theorem crewLoopWithoutRotation_eq (R : String) (g : Globals)
    (hR : R = "PC" ∨ R = "PI" ∨ R = "FE" ∨ R = "CE") (hroster : 2 ≤ rosterLength g R)
    (i : Nat) (s : List CrewAvailability) :
    ∀ st, st.crewHasAFlightThisWeek.get R = some [] →
      crewLoopWithoutRotation R g i s st = crewLoop g i s st := by
  induction s with
  | nil =>
    intro st _
    rfl
  | cons c rest ih =>
    intro st hinv
    simp only [crewLoopWithoutRotation, crewLoop, considerCrewWithoutRotation_eq R g i st c hinv]
    cases hc : considerCrew g i st c with
    | error e => rfl
    | ok st1 => exact ih st1 (rotationEmpty_step g R hR hroster i st st1 c hinv hc)

theorem rotationEmpty_crewLoop (g : Globals) (R : String)
    (hR : R = "PC" ∨ R = "PI" ∨ R = "FE" ∨ R = "CE") (hroster : 2 ≤ rosterLength g R)
    (i : Nat) (s : List CrewAvailability) (st st1 : AllocState)
    (hinv : st.crewHasAFlightThisWeek.get R = some []) (h : crewLoop g i s st = .ok st1) :
    st1.crewHasAFlightThisWeek.get R = some [] :=
  crewLoop_invariant g i (fun st => st.crewHasAFlightThisWeek.get R = some []) s
    (fun a b c _ ha hs => rotationEmpty_step g R hR hroster i a b c ha hs) st st1 hinv h

theorem rotationEmpty_processFlight (g : Globals) (R : String)
    (hR : R = "PC" ∨ R = "PI" ∨ R = "FE" ∨ R = "CE") (hroster : 2 ≤ rosterLength g R)
    (s : List CrewAvailability) (i : Nat) (st st1 : AllocState)
    (hinv : st.crewHasAFlightThisWeek.get R = some [])
    (h : processFlight g s i st = .ok st1) :
    st1.crewHasAFlightThisWeek.get R = some [] := by
  obtain ⟨flight, -, hc⟩ := processFlight_ok g s i st st1 h
  exact rotationEmpty_crewLoop g R hR hroster i s (resetDay st flight) st1
    (by rw [resetDay_week]; exact hinv) hc

theorem processFlightWithoutRotation_eq (R : String) (g : Globals)
    (hR : R = "PC" ∨ R = "PI" ∨ R = "FE" ∨ R = "CE") (hroster : 2 ≤ rosterLength g R)
    (s : List CrewAvailability) (i : Nat) (st : AllocState)
    (hinv : st.crewHasAFlightThisWeek.get R = some []) :
    processFlightWithoutRotation R g s i st = processFlight g s i st := by
  unfold processFlightWithoutRotation processFlight
  cases st.Flights[i]? with
  | none => rfl
  | some flight =>
    exact crewLoopWithoutRotation_eq R g hR hroster i s (resetDay st flight)
      (by rw [resetDay_week]; exact hinv)

theorem flightLoopWithoutRotation_eq (R : String) (g : Globals)
    (hR : R = "PC" ∨ R = "PI" ∨ R = "FE" ∨ R = "CE") (hroster : 2 ≤ rosterLength g R)
    (s : List CrewAvailability) :
    ∀ n i st, st.crewHasAFlightThisWeek.get R = some [] →
      flightLoopWithoutRotation R g s i n st = flightLoop g s i n st := by
  intro n
  induction n with
  | zero =>
    intro i st _
    rfl
  | succ n ih =>
    intro i st hinv
    simp only [flightLoopWithoutRotation, flightLoop,
      processFlightWithoutRotation_eq R g hR hroster s i st hinv]
    cases hp : processFlight g s i st with
    | error e => rfl
    | ok st1 => exact ih (i + 1) st1 (rotationEmpty_processFlight g R hR hroster s i st st1 hinv hp)

theorem get_initial (R : String) (hR : R = "PC" ∨ R = "PI" ∨ R = "FE" ∨ R = "CE") :
    WeekMap.initial.get R = some [] := by
  rcases hR with rfl | rfl | rfl | rfl <;> rfl

/-- C11: for a role `R` whose roster list has at least 2 names, the rotation set
of `R` is empty in every state in which a crew member is tested for
eligibility, that is after any part `pre` of the crew list has been walked for
any slot `i`; hence the schedule computed with the rotation-window test removed
for `R` is the returned one, error or panic included. -/
theorem rotation_test_never_excludes (g : Globals) (s : List CrewAvailability) (R : String)
    (hR : R = "PC" ∨ R = "PI" ∨ R = "FE" ∨ R = "CE") (hroster : 2 ≤ rosterLength g R) :
    (∀ (flights : List Flight) (i : Nat) (pre rest : List CrewAvailability)
        (st0 stK : AllocState), s = pre ++ rest →
        slotStart g s flights i = .ok st0 → crewLoop g i pre st0 = .ok stK →
        stK.crewHasAFlightThisWeek.get R = some [])
    ∧ calculateWithoutRotation R g s = calculateFlightSchedules g s := by
  constructor
  · intro flights i pre rest st0 stK _ hstart hK
    obtain ⟨st, f, hl, -, rfl⟩ := slotStart_ok g s flights i st0 hstart
    have hst : st.crewHasAFlightThisWeek.get R = some [] :=
      flightLoop_invariant g s (fun _ st => st.crewHasAFlightThisWeek.get R = some [])
        (fun j a b ha hp => rotationEmpty_processFlight g R hR hroster s j a b ha hp)
        i 0 (initialState flights) st (get_initial R hR) hl
    exact rotationEmpty_crewLoop g R hR hroster i pre (resetDay st f) stK
      (by rw [resetDay_week]; exact hst) hK
  · unfold calculateWithoutRotation calculateFlightSchedules
    cases initializeFlightSchedules g with
    | error e => rfl
    | ok flights =>
      simp only
      rw [flightLoopWithoutRotation_eq R g hR hroster s flights.length 0 _ (get_initial R hR)]

/-- C11 on the scenario, for the CEs with their roster of three. -/
theorem rotation_test_never_excludes_witness :
    2 ≤ rosterLength scenarioGlobals "CE"
    ∧ calculateWithoutRotation "CE" scenarioGlobals scenarioCrew = .ok scenarioSchedule :=
  ⟨by decide,
   (rotation_test_never_excludes scenarioGlobals scenarioCrew "CE" (by decide) (by decide)).2.trans
     (by decide)⟩

/-! ### Rosters of one -/

theorem roleField_placeCrew_other (R : String) (f : Flight) (c : CrewAvailability)
    (hs : c.Status ≠ R) : roleField R (placeCrew f c) = roleField R f := by
  unfold roleField placeCrew
  split_ifs <;> simp_all

theorem roleField_placeCrew_same (fs : List Flight) (i : Nat) (f : Flight) (c : CrewAvailability)
    (ty : String) (hf : fs[i]? = some f) (ho : isSpotOccupied fs c.Status ty i = .ok false)
    (hs : c.Status = "PC" ∨ c.Status = "PI" ∨ c.Status = "FE" ∨ c.Status = "CE") :
    roleField c.Status (placeCrew f c) = roleField c.Status f ++ [newCrewMember c] := by
  simp only [isSpotOccupied, hf] at ho
  rcases hs with h | h | h | h
  · simp [h] at ho
    simp [roleField, placeCrew, h, ho]
  · simp [roleField, placeCrew, h]
  · simp [h] at ho
    simp [roleField, placeCrew, h, ho]
  · simp [roleField, placeCrew, h]

theorem resetSet_one (l : List String) : resetSet 1 (some l) = some l := by
  cases l with
  | nil => exact resetSet_nil 1
  | cons a t => exact resetSet_one_keep (a :: t) a (List.mem_cons_self _ _)

theorem get_isSome_of_complete (w : WeekMap) (R : String) (hw : weekComplete w)
    (hR : R = "PC" ∨ R = "PI" ∨ R = "FE" ∨ R = "CE") : ∃ l, w.get R = some l := by
  obtain ⟨h1, h2, h3, h4⟩ := hw
  rcases hR with rfl | rfl | rfl | rfl
  · exact Option.isSome_iff_exists.1 (by simpa [WeekMap.get] using h2)
  · exact Option.isSome_iff_exists.1 (by simpa [WeekMap.get] using h1)
  · exact Option.isSome_iff_exists.1 (by simpa [WeekMap.get] using h3)
  · exact Option.isSome_iff_exists.1 (by simpa [WeekMap.get] using h4)

/-- The rotation set of a role with a roster of one after an assignment, the
full roster not being of four: the set as the write left it. -/
theorem get_after_assign (g : Globals) (R : String)
    (hR : R = "PC" ∨ R = "PI" ∨ R = "FE" ∨ R = "CE") (hroster : rosterLength g R = 1)
    (hfull : g.fullCrew.length ≠ 4) (w0 w : WeekMap) (status name : String) (l : List String)
    (hw : weekComplete w0) (hl : w0.get R = some l) (hm : w0.mark status name = .ok w) :
    (ninetyPercentResets g (clearWhenEveryoneFlew g w)).get R =
      some (if status = R then setInsert l name else l) := by
  have hwc := mark_complete _ _ _ _ hw hm
  rw [get_ninetyPercentResets g _ R hR, clearWhenEveryoneFlew_keep g w hwc hfull, hroster,
    get_mark _ _ _ _ R hR hm, hl]
  split_ifs
  · exact resetSet_one _
  · exact resetSet_one _

/-- With a roster of one and a full roster that is not of four, a step never
takes a name out of the rotation set of the role. -/
theorem rotationSet_grows (g : Globals) (R : String)
    (hR : R = "PC" ∨ R = "PI" ∨ R = "FE" ∨ R = "CE") (hroster : rosterLength g R = 1)
    (hfull : g.fullCrew.length ≠ 4) (i : Nat) (st st1 : AllocState) (crew : CrewAvailability)
    (l : List String) (hw : weekComplete st.crewHasAFlightThisWeek)
    (hl : st.crewHasAFlightThisWeek.get R = some l)
    (h : considerCrew g i st crew = .ok st1) :
    ∃ l1, st1.crewHasAFlightThisWeek.get R = some l1 ∧ ∀ n ∈ l, n ∈ l1 := by
  rcases considerCrew_ok g i st st1 crew h with rfl | ⟨flight, w, -, -, -, hm, rfl⟩
  · exact ⟨l, hl, fun n hn => hn⟩
  · refine ⟨_, get_after_assign g R hR hroster hfull _ w _ _ l hw hl hm, ?_⟩
    intro n hn
    split_ifs
    · exact (mem_setInsert _ _ _).2 (Or.inl hn)
    · exact hn

theorem roleNames_placeCrew_other (R : String) (f : Flight) (c : CrewAvailability)
    (hs : c.Status ≠ R) : roleNames R (placeCrew f c) = roleNames R f := by
  unfold roleNames
  rw [roleField_placeCrew_other R f c hs]

theorem roleNames_placeCrew_same (fs : List Flight) (i : Nat) (f : Flight) (c : CrewAvailability)
    (ty : String) (hf : fs[i]? = some f) (ho : isSpotOccupied fs c.Status ty i = .ok false)
    (hs : c.Status = "PC" ∨ c.Status = "PI" ∨ c.Status = "FE" ∨ c.Status = "CE") :
    roleNames c.Status (placeCrew f c) = roleNames c.Status f ++ [crewName c] := by
  unfold roleNames
  rw [roleField_placeCrew_same fs i f c ty hf ho hs]
  simp [memberName_newCrewMember]

/-- A step keeps the invariant of a role with a roster of one. -/
theorem roleOnce_step (g : Globals) (R : String)
    (hR : R = "PC" ∨ R = "PI" ∨ R = "FE" ∨ R = "CE") (hroster : rosterLength g R = 1)
    (hfull : g.fullCrew.length ≠ 4) (i : Nat) (st st1 : AllocState) (crew : CrewAvailability)
    (hinv : RoleOnce R st) (h : considerCrew g i st crew = .ok st1) : RoleOnce R st1 := by
  rcases considerCrew_ok g i st st1 crew h with rfl | ⟨flight, w, hf, he, ho, hm, rfl⟩
  · exact hinv
  · obtain ⟨l, hl⟩ := get_isSome_of_complete _ R hinv.complete hR
    have hweek := get_after_assign g R hR hroster hfull _ w _ _ l hinv.complete hl hm
    have hmem : flight ∈ st.Flights := List.getElem?_mem hf
    have hvalid := mark_ok_validStatus _ _ _ _ hm
    have hbooked : ∀ f ∈ st.Flights, ∀ n ∈ roleNames R f, n ∈ l := by
      intro f hfm n hn
      have := hinv.booked f hfm n hn
      rwa [hl] at this
    by_cases hs : crew.Status = R
    · -- a crew member of the role is assigned
      have hnl : crewName crew ∉ l := by
        have := ((eligible_iff _ _ _).1 he).2.2
        rwa [hs, hl] at this
      have hnew : roleNames R (placeCrew flight crew) = roleNames R flight ++ [crewName crew] := by
        have := roleNames_placeCrew_same st.Flights i flight crew flight.Typ hf ho hvalid
        rwa [hs] at this
      have hfresh : ∀ f ∈ st.Flights, crewName crew ∉ roleNames R f :=
        fun f hfm hc => hnl (hbooked f hfm _ hc)
      refine ⟨?_, ?_, ?_, ?_⟩
      · dsimp only
        exact weekComplete_resets g _
      · intro f hfm n hn
        dsimp only
        rw [hweek, if_pos hs]
        simp only [Option.getD_some, mem_setInsert]
        rcases mem_set_cases _ _ _ _ hfm with rfl | hfm
        · rw [hnew, List.mem_append, List.mem_singleton] at hn
          rcases hn with hn | hn
          · exact Or.inl (hbooked flight hmem n hn)
          · exact Or.inr hn
        · exact Or.inl (hbooked f hfm n hn)
      · intro f hfm
        rcases mem_set_cases _ _ _ _ hfm with rfl | hfm
        · rw [hnew]
          refine List.Nodup.append (hinv.nodup flight hmem) (List.nodup_singleton _) ?_
          intro a ha hb
          rw [List.mem_singleton] at hb
          exact hfresh flight hmem (hb ▸ ha)
        · exact hinv.nodup f hfm
      · intro j k fj fk hjk hj hk n hnj hnk
        rcases getElem?_set_cases _ _ _ _ _ hj with ⟨hji, hfj⟩ | ⟨hji, hj1⟩
        · rcases getElem?_set_cases _ _ _ _ _ hk with ⟨hki, -⟩ | ⟨-, hk1⟩
          · exact hjk (hji.trans hki.symm)
          · subst hfj
            rw [hnew, List.mem_append, List.mem_singleton] at hnj
            rcases hnj with hnj | hnj
            · exact hinv.disjoint i k flight fk (hji ▸ hjk) hf hk1 n hnj hnk
            · exact hfresh fk (List.getElem?_mem hk1) (hnj ▸ hnk)
        · rcases getElem?_set_cases _ _ _ _ _ hk with ⟨hki, hfk⟩ | ⟨-, hk1⟩
          · subst hfk
            rw [hnew, List.mem_append, List.mem_singleton] at hnk
            rcases hnk with hnk | hnk
            · exact hinv.disjoint j i fj flight hji hj1 hf n hnj hnk
            · exact hfresh fj (List.getElem?_mem hj1) (hnk ▸ hnj)
          · exact hinv.disjoint j k fj fk hjk hj1 hk1 n hnj hnk
    · -- a crew member of another status is assigned
      have hsame : roleNames R (placeCrew flight crew) = roleNames R flight :=
        roleNames_placeCrew_other R flight crew hs
      refine ⟨?_, ?_, ?_, ?_⟩
      · dsimp only
        exact weekComplete_resets g _
      · intro f hfm n hn
        dsimp only
        rw [hweek, if_neg hs]
        rcases mem_set_cases _ _ _ _ hfm with rfl | hfm
        · rw [hsame] at hn
          exact hbooked flight hmem n hn
        · exact hbooked f hfm n hn
      · intro f hfm
        rcases mem_set_cases _ _ _ _ hfm with rfl | hfm
        · rw [hsame]
          exact hinv.nodup flight hmem
        · exact hinv.nodup f hfm
      · intro j k fj fk hjk hj hk n hnj hnk
        rcases getElem?_set_cases _ _ _ _ _ hj with ⟨hji, hfj⟩ | ⟨hji, hj1⟩
        · rcases getElem?_set_cases _ _ _ _ _ hk with ⟨hki, -⟩ | ⟨-, hk1⟩
          · exact hjk (hji.trans hki.symm)
          · subst hfj
            rw [hsame] at hnj
            exact hinv.disjoint i k flight fk (hji ▸ hjk) hf hk1 n hnj hnk
        · rcases getElem?_set_cases _ _ _ _ _ hk with ⟨hki, hfk⟩ | ⟨-, hk1⟩
          · subst hfk
            rw [hsame] at hnk
            exact hinv.disjoint j i fj flight hji hj1 hf n hnj hnk
          · exact hinv.disjoint j k fj fk hjk hj1 hk1 n hnj hnk

theorem roleOnce_initial (R : String) (flights : List Flight)
    (hempty : ∀ f ∈ flights, f.PC = none ∧ f.PIs = [] ∧ f.FE = none ∧ f.CEs = []) :
    RoleOnce R (initialState flights) := by
  have hnames : ∀ f ∈ flights, roleNames R f = [] := by
    intro f hf
    obtain ⟨h1, h2, h3, h4⟩ := hempty f hf
    unfold roleNames roleField
    split_ifs <;> simp [h1, h2, h3, h4]
  refine ⟨weekComplete_initial, ?_, ?_, ?_⟩
  · intro f hf n hn
    rw [hnames f hf] at hn
    cases hn
  · intro f hf
    rw [hnames f hf]
    exact List.nodup_nil
  · intro j k fj fk _ hj _ n hn
    rw [hnames fj (List.getElem?_mem hj)] at hn
    cases hn

theorem roleOnce_resetDay (R : String) (st : AllocState) (flight : Flight)
    (h : RoleOnce R st) : RoleOnce R (resetDay st flight) := by
  refine ⟨?_, ?_, ?_, ?_⟩
  · rw [resetDay_week]
    exact h.complete
  · rw [resetDay_week, resetDay_flights]
    exact h.booked
  · rw [resetDay_flights]
    exact h.nodup
  · rw [resetDay_flights]
    exact h.disjoint

/-- In a slot whose occupants come from the crew list, a name borne by records
of status `R` only occurs in the field of `R` only. -/
theorem count_slotNames (s : List CrewAvailability) (R n : String) (f : Flight)
    (hR : R = "PC" ∨ R = "PI" ∨ R = "FE" ∨ R = "CE") (hf : slotFromCrew s f)
    (hn : ∀ c ∈ s, crewName c = n → c.Status = R) :
    (slotNames f).count n = (roleNames R f).count n := by
  obtain ⟨h1, h2, h3, h4⟩ := hf
  have hPC : R ≠ "PC" → (f.PC.toList.map memberName).count n = 0 := by
    intro hne
    apply List.count_eq_zero_of_not_mem
    intro hc
    obtain ⟨m, hm, rfl⟩ := List.mem_map.1 hc
    obtain ⟨c, hcs, rfl, hst, -⟩ := h1 m (by simpa using hm)
    exact hne ((hn c hcs rfl).symm.trans hst)
  have hPI : R ≠ "PI" → (f.PIs.map memberName).count n = 0 := by
    intro hne
    apply List.count_eq_zero_of_not_mem
    intro hc
    obtain ⟨m, hm, rfl⟩ := List.mem_map.1 hc
    obtain ⟨c, hcs, rfl, hst, -⟩ := h2 m hm
    exact hne ((hn c hcs rfl).symm.trans hst)
  have hFE : R ≠ "FE" → (f.FE.toList.map memberName).count n = 0 := by
    intro hne
    apply List.count_eq_zero_of_not_mem
    intro hc
    obtain ⟨m, hm, rfl⟩ := List.mem_map.1 hc
    obtain ⟨c, hcs, rfl, hst, -⟩ := h3 m (by simpa using hm)
    exact hne ((hn c hcs rfl).symm.trans hst)
  have hCE : R ≠ "CE" → (f.CEs.map memberName).count n = 0 := by
    intro hne
    apply List.count_eq_zero_of_not_mem
    intro hc
    obtain ⟨m, hm, rfl⟩ := List.mem_map.1 hc
    obtain ⟨c, hcs, rfl, hst, -⟩ := h4 m hm
    exact hne ((hn c hcs rfl).symm.trans hst)
  simp only [slotNames, occupants, List.map_append, List.count_append]
  rcases hR with rfl | rfl | rfl | rfl
  · rw [hPI (by decide), hFE (by decide), hCE (by decide)]
    simp [roleNames, roleField]
  · rw [hPC (by decide), hFE (by decide), hCE (by decide)]
    simp [roleNames, roleField]
  · rw [hPC (by decide), hPI (by decide), hCE (by decide)]
    simp [roleNames, roleField]
  · rw [hPC (by decide), hPI (by decide), hFE (by decide)]
    simp [roleNames, roleField]

/-- C12, the claim at a concrete input: with a PC roster of one name and a full
roster of two, the name Alice Smith, borne by a record of status PC and by a
record of status PI, holds two role positions in the returned schedule: the PC
seat of the MAINTENANCE slot of the first day and the PI position of the
MAINTENANCE slot of the second day. -/
theorem single_roster_counterexample :
    rosterLength sharedNameGlobals "PC" = 1 ∧ sharedNameGlobals.fullCrew.length ≠ 4
    ∧ ∃ fs f0 f4, calculateFlightSchedules sharedNameGlobals sharedNameCrew = .ok fs
        ∧ fs[0]? = some f0 ∧ fs[4]? = some f4
        ∧ f0.PC = some ⟨"Alice", "Smith", "CPT", "PC"⟩
        ∧ f4.PIs = [⟨"Alice", "Smith", "CPT", "PI"⟩]
        ∧ "Alice Smith" ∈ slotNames f0 ∧ "Alice Smith" ∈ slotNames f4 :=
  ⟨by decide, by decide, _, _, _, rfl, rfl, rfl, by decide, by decide, by decide, by decide⟩

/-- C12 as amended: for a role `R` whose roster list has exactly 1 name, the
full roster not being of 4 names, no step takes a name out of the rotation set
of `R`; so in the returned schedule no name holds two positions of the role
`R`, in one slot or in two, whatever the availability; and a name that only
records of status `R` bear holds at most one position of any role in the whole
schedule. -/
theorem single_roster_flies_once (g : Globals) (s : List CrewAvailability) (R : String)
    (fs : List Flight) (hR : R = "PC" ∨ R = "PI" ∨ R = "FE" ∨ R = "CE")
    (hroster : rosterLength g R = 1) (hfull : g.fullCrew.length ≠ 4)
    (h : calculateFlightSchedules g s = .ok fs) :
    (∀ (i : Nat) (st st1 : AllocState) (crew : CrewAvailability) (l : List String),
        weekComplete st.crewHasAFlightThisWeek → st.crewHasAFlightThisWeek.get R = some l →
        considerCrew g i st crew = .ok st1 →
        ∃ l1, st1.crewHasAFlightThisWeek.get R = some l1 ∧ ∀ n ∈ l, n ∈ l1)
    ∧ (∀ f ∈ fs, (roleNames R f).Nodup)
    ∧ (∀ (j k : Nat) (fj fk : Flight), j ≠ k → fs[j]? = some fj → fs[k]? = some fk →
        ∀ n ∈ roleNames R fj, n ∉ roleNames R fk)
    ∧ (∀ n : String, (∀ c ∈ s, crewName c = n → c.Status = R) →
        (∀ f ∈ fs, (slotNames f).count n ≤ 1) ∧
        (∀ (j k : Nat) (fj fk : Flight), j ≠ k → fs[j]? = some fj → fs[k]? = some fk →
          n ∈ slotNames fj → n ∉ slotNames fk)) := by
  have hfrom := allFromCrew g s fs h
  obtain ⟨flights, stF, hi, hl, rfl⟩ := calculate_ok g s fs h
  have hinv : RoleOnce R stF :=
    flightLoop_invariant g s (fun _ st => RoleOnce R st)
      (fun i a b ha hp => by
        obtain ⟨fl, -, hc⟩ := processFlight_ok g s i a b hp
        exact crewLoop_invariant g i (RoleOnce R) s
          (fun x y c _ hx hs => roleOnce_step g R hR hroster hfull i x y c hx hs)
          (resetDay a fl) b (roleOnce_resetDay R a fl ha) hc)
      flights.length 0 (initialState flights) stF
      (roleOnce_initial R flights (initialize_empty g flights hi)) hl
  refine ⟨?_, hinv.nodup, hinv.disjoint, ?_⟩
  · intro i st st1 crew l hw hget hstep
    exact rotationSet_grows g R hR hroster hfull i st st1 crew l hw hget hstep
  · intro n hn
    constructor
    · intro f hf
      rw [count_slotNames s R n f hR (hfrom f hf) hn]
      exact List.nodup_iff_count_le_one.1 (hinv.nodup f hf) n
    · intro j k fj fk hjk hj hk hnj hnk
      have hcj := count_slotNames s R n fj hR (hfrom fj (List.getElem?_mem hj)) hn
      have hck := count_slotNames s R n fk hR (hfrom fk (List.getElem?_mem hk)) hn
      have h1 : n ∈ roleNames R fj := by
        rw [← List.count_pos_iff, ← hcj, List.count_pos_iff]
        exact hnj
      have h2 : n ∈ roleNames R fk := by
        rw [← List.count_pos_iff, ← hck, List.count_pos_iff]
        exact hnk
      exact hinv.disjoint j k fj fk hjk hj hk n h1 h2

/-- C12 as amended, on the scenario, for the PCs with their roster of one: no
name holds two PC positions, and Alice Smith holds one position in the whole
week. -/
theorem single_roster_flies_once_witness :
    rosterLength scenarioGlobals "PC" = 1 ∧ scenarioGlobals.fullCrew.length ≠ 4
    ∧ calculateFlightSchedules scenarioGlobals scenarioCrew = .ok scenarioSchedule
    ∧ (∀ f ∈ scenarioSchedule, (roleNames "PC" f).Nodup)
    ∧ (∀ f ∈ scenarioSchedule, (slotNames f).count "Alice Smith" ≤ 1) :=
  have h := single_roster_flies_once scenarioGlobals scenarioCrew "PC" scenarioSchedule
    (by decide) (by decide) (by decide) (by decide)
  ⟨by decide, by decide, by decide, h.2.1, (h.2.2.2 "Alice Smith" (by decide)).1⟩

/-! ### Priority of the crew list: the claim -/

/-- The copy of a crew member that stands in the field of its status in slot
`i` stays there through every step of the run, whatever slot the step works
on: the PI and CE lists only grow, and a filled PC or FE seat reads as
occupied, so that it is not written again. -/
theorem seat_step (g : Globals) (i j : Nat) (c : CrewAvailability) (st st1 : AllocState)
    (crew : CrewAvailability)
    (h0 : ∃ f, st.Flights[i]? = some f ∧ newCrewMember c ∈ roleField c.Status f)
    (h : considerCrew g j st crew = .ok st1) :
    ∃ f, st1.Flights[i]? = some f ∧ newCrewMember c ∈ roleField c.Status f := by
  rcases considerCrew_ok g j st st1 crew h with rfl | ⟨flight, w, hf, -, ho, hm, rfl⟩
  · exact h0
  · obtain ⟨f, hfi, hmem⟩ := h0
    dsimp only
    by_cases hji : j = i
    · subst hji
      rw [hf] at hfi
      injection hfi with hfi
      subst hfi
      have hlt : j < st.Flights.length := by
        by_contra hc
        rw [List.getElem?_eq_none (by omega)] at hf
        cases hf
      refine ⟨placeCrew flight crew, by rw [List.getElem?_set]; simp [hlt], ?_⟩
      by_cases hs : crew.Status = c.Status
      · rw [← hs, roleField_placeCrew_same st.Flights j flight crew flight.Typ hf ho
          (mark_ok_validStatus _ _ _ _ hm)]
        rw [← hs] at hmem
        exact List.mem_append_left _ hmem
      · rw [roleField_placeCrew_other _ _ _ hs]
        exact hmem
    · refine ⟨f, ?_, hmem⟩
      rw [List.getElem?_set, if_neg hji]
      exact hfi

/-- A PC or an FE written into slot `i` makes the seat read as occupied. -/
theorem occupied_after_assign (fs : List Flight) (i : Nat) (f : Flight) (c : CrewAvailability)
    (ty : String) (hf : fs[i]? = some f) (hs : c.Status = "PC" ∨ c.Status = "FE") :
    isSpotOccupied (fs.set i (placeCrew f c)) c.Status ty i = .ok true := by
  have hi : i < fs.length := by
    by_contra hc
    rw [List.getElem?_eq_none (by omega)] at hf
    cases hf
  have hset : (fs.set i (placeCrew f c))[i]? = some (placeCrew f c) := by
    rw [List.getElem?_set]
    simp [hi]
  unfold isSpotOccupied
  simp only [hset]
  rcases hs with h | h
  · simp [h, placeCrew]
  · simp [h, placeCrew]

theorem assignCrew_validStatus (g : Globals) (i : Nat) (st st1 : AllocState)
    (c : CrewAvailability) (h : assignCrew g i st c = .ok st1) : validStatus c := by
  unfold assignCrew at h
  cases hf : st.Flights[i]? with
  | none => simp [hf] at h
  | some flight =>
    simp only [hf] at h
    cases hm : st.crewHasAFlightThisWeek.mark c.Status (crewName c) with
    | error e => simp [hm] at h
    | ok w => exact mark_ok_validStatus _ _ _ _ hm

/-- A crew member assigned to slot `i` stands in the field of its status in
slot `i` after the step. -/
theorem seat_taken (g : Globals) (i : Nat) (st st1 : AllocState) (c : CrewAvailability)
    (hass : assignsAt st i c = true) (h : considerCrew g i st c = .ok st1) :
    ∃ f, st1.Flights[i]? = some f ∧ newCrewMember c ∈ roleField c.Status f := by
  obtain ⟨f, hf, he, ho⟩ := (assignsAt_iff st i c).1 hass
  rw [considerCrew_assign g i st c f hf he ho] at h
  refine ⟨_, assignCrew_flights g i st st1 c f hf h, ?_⟩
  rw [roleField_placeCrew_same st.Flights i f c f.Typ hf ho (assignCrew_validStatus g i st st1 c h)]
  simp

/-- C4: in the crew loop of slot `i`, let `a` precede `b` in the crew list, both
of the same status, let `stA` and `stB` be the states in which `a` and `b` are
considered, and let `f` be slot `i` of the returned schedule. A record that is
assigned when considered, `a` or `b`, has its copy in the field of its status
in `f`: it is the PC or the FE of `f`, or a member of its PI or CE list. If `b`
is assigned and `a`, when considered, passed the eligibility test (available on
the date of the slot, not yet flown that day, not in the rotation set of its
status), then `a` is assigned too, and the PI list, for PIs, or the CE list,
for CEs, of `f` holds the copy of `a` before the copy of `b`. For PCs and FEs,
whose seat holds one member, `b` is not assigned once `a` passed the
eligibility test. -/
theorem priority_stable (g : Globals) (pre mid post : List CrewAvailability)
    (a b : CrewAvailability) (flights fs : List Flight) (i : Nat) (st0 stA stB : AllocState)
    (hinit : initializeFlightSchedules g = .ok flights)
    (hcalc : calculateFlightSchedules g (pre ++ a :: (mid ++ b :: post)) = .ok fs)
    (hstart : slotStart g (pre ++ a :: (mid ++ b :: post)) flights i = .ok st0)
    (hA : crewLoop g i pre st0 = .ok stA)
    (hB : crewLoop g i (pre ++ a :: mid) st0 = .ok stB)
    (hrole : a.Status = b.Status) :
    ∃ f, fs[i]? = some f ∧
      (assignsAt stA i a = true → newCrewMember a ∈ roleField a.Status f) ∧
      (assignsAt stB i b = true → newCrewMember b ∈ roleField b.Status f) ∧
      (eligibleAt stA i a = true → assignsAt stB i b = true →
        assignsAt stA i a = true ∧
        (b.Status = "PI" →
          ∃ l1 l2 l3, f.PIs = l1 ++ newCrewMember a :: (l2 ++ newCrewMember b :: l3)) ∧
        (b.Status = "CE" →
          ∃ l1 l2 l3, f.CEs = l1 ++ newCrewMember a :: (l2 ++ newCrewMember b :: l3))) ∧
      (eligibleAt stA i a = true → b.Status = "PC" ∨ b.Status = "FE" →
        assignsAt stB i b = false) := by
  -- the run, cut at slot `i`
  obtain ⟨flights1, stF, hi1, hl, rfl⟩ := calculate_ok g _ fs hcalc
  rw [hinit] at hi1
  injection hi1 with hi1
  subst hi1
  obtain ⟨sti, fi, hli, hfi, rfl⟩ := slotStart_ok g _ flights i st0 hstart
  have hlen : sti.Flights.length = flights.length := flightLoop_length g _ i 0 _ sti hli
  have hilt : i < flights.length := by
    by_contra hc
    rw [List.getElem?_eq_none (by omega)] at hfi
    cases hfi
  have hlenF : stF.Flights.length = flights.length := flightLoop_length g _ _ 0 _ stF hl
  rw [show flights.length = i + (1 + (flights.length - i - 1)) by omega] at hl
  obtain ⟨sti1, hli1, hl2⟩ := flightLoop_add_ok g _ i _ 0 _ stF hl
  rw [hli] at hli1
  injection hli1 with hli1
  subst hli1
  rw [Nat.zero_add] at hl2
  obtain ⟨stn, hp, hl3⟩ := flightLoop_add_ok g _ 1 _ i sti stF hl2
  have hproc : processFlight g (pre ++ a :: (mid ++ b :: post)) i sti = .ok stn := by
    simp only [flightLoop] at hp
    cases hpp : processFlight g (pre ++ a :: (mid ++ b :: post)) i sti with
    | error e => simp [hpp] at hp
    | ok x => simpa [hpp] using hp
  obtain ⟨fi1, hfi1, hcrew⟩ := processFlight_ok g _ i sti stn hproc
  rw [hfi] at hfi1
  injection hfi1 with hfi1
  subst hfi1
  -- the crew loop of slot `i`, cut at `a` and at `b`
  obtain ⟨stA1, hA1, hrestA⟩ := crewLoop_append_ok g i pre _ _ stn hcrew
  rw [hA] at hA1
  injection hA1 with hA1
  subst hA1
  obtain ⟨stA2, hstepA, hrest2⟩ := crewLoop_cons_ok g i a _ stA stn hrestA
  obtain ⟨stB1, hmid, hrestB⟩ := crewLoop_append_ok g i mid _ stA2 stn hrest2
  have hB1 : crewLoop g i (pre ++ a :: mid) (resetDay sti fi) = .ok stB1 := by
    rw [crewLoop_append, hA]
    simp only [crewLoop, hstepA]
    exact hmid
  rw [hB] at hB1
  injection hB1 with hB1
  subst hB1
  obtain ⟨stB2, hstepB, hpost⟩ := crewLoop_cons_ok g i b _ stB stn hrestB
  -- slot `i` of the returned schedule
  have hfF : stF.Flights[i]? = some (stF.Flights.get ⟨i, by omega⟩) :=
    List.getElem?_eq_getElem (by omega)
  refine ⟨_, hfF, ?_, ?_, ?_, ?_⟩
  · -- the copy of `a` stays
    intro hass
    have h1 := seat_taken g i stA stA2 a hass hstepA
    have h2 := crewLoop_flights_invariant g i (mid ++ b :: post)
      (fun fs => ∃ f, fs[i]? = some f ∧ newCrewMember a ∈ roleField a.Status f)
      (fun x y c hx hs => seat_step g i i a x y c hx hs) stA2 stn h1 hrest2
    have h3 := flightLoop_flights_invariant g (pre ++ a :: (mid ++ b :: post))
      (fun fs => ∃ f, fs[i]? = some f ∧ newCrewMember a ∈ roleField a.Status f)
      (fun j x y c hx hs => seat_step g i j a x y c hx hs) _ _ stn stF h2 hl3
    obtain ⟨f, hf, hmem⟩ := h3
    rw [hfF] at hf
    injection hf with hf
    rw [hf]
    exact hmem
  · -- the copy of `b` stays
    intro hass
    have h1 := seat_taken g i stB stB2 b hass hstepB
    have h2 := crewLoop_flights_invariant g i post
      (fun fs => ∃ f, fs[i]? = some f ∧ newCrewMember b ∈ roleField b.Status f)
      (fun x y c hx hs => seat_step g i i b x y c hx hs) stB2 stn h1 hpost
    have h3 := flightLoop_flights_invariant g (pre ++ a :: (mid ++ b :: post))
      (fun fs => ∃ f, fs[i]? = some f ∧ newCrewMember b ∈ roleField b.Status f)
      (fun j x y c hx hs => seat_step g i j b x y c hx hs) _ _ stn stF h2 hl3
    obtain ⟨f, hf, hmem⟩ := h3
    rw [hfF] at hf
    injection hf with hf
    rw [hf]
    exact hmem
  · intro ha hb
    obtain ⟨fA, hfA, heA⟩ := (eligibleAt_iff stA i a).1 ha
    obtain ⟨fB, hfB, heB, hoB⟩ := (assignsAt_iff stB i b).1 hb
    -- `a` is assigned: otherwise its spot is occupied and stays so until `b`
    have hoA : isSpotOccupied stA.Flights a.Status fA.Typ i = .ok false := by
      obtain ⟨occ, hocc⟩ := isSpotOccupied_total stA.Flights a.Status fA.Typ i fA hfA
      cases occ with
      | false => exact hocc
      | true =>
        exfalso
        have h1 := occupied_step g i a.Status fA.Typ stA stA2 a hocc hstepA
        have h2 := crewLoop_flights_invariant g i mid
          (fun fs => isSpotOccupied fs a.Status fA.Typ i = .ok true)
          (fun x y c hx hs => occupied_step g i a.Status fA.Typ x y c hx hs) stA2 stB h1 hmid
        rw [hrole, isSpotOccupied_type _ _ _ fB.Typ, hoB] at h2
        cases h2
    have hassA : assignsAt stA i a = true := (assignsAt_iff stA i a).2 ⟨fA, hfA, heA, hoA⟩
    refine ⟨hassA, ?_⟩
    -- the slot after the step of `a`, then after the step of `b`
    have hA2 : stA2.Flights[i]? = some (placeCrew fA a) := by
      have hstepA1 := hstepA
      rw [considerCrew_assign g i stA a fA hfA heA hoA] at hstepA1
      exact assignCrew_flights g i stA stA2 a fA hfA hstepA1
    have hB2 : stB2.Flights[i]? = some (placeCrew fB b) := by
      have hstepB1 := hstepB
      rw [considerCrew_assign g i stB b fB hfB heB hoB] at hstepB1
      exact assignCrew_flights g i stB stB2 b fB hfB hstepB1
    have hgrowB := crewLoop_flights_invariant g i mid
      (fun fs => ∃ f, fs[i]? = some f ∧ (placeCrew fA a).PIs <+: f.PIs ∧
        (placeCrew fA a).CEs <+: f.CEs)
      (fun x y c hx hs => prefix_step g i i _ _ x y c hx hs) stA2 stB
      ⟨_, hA2, List.prefix_refl _, List.prefix_refl _⟩ hmid
    obtain ⟨fB1, hfB1, hPB, hCB⟩ := hgrowB
    rw [hfB] at hfB1
    injection hfB1 with hfB1
    subst hfB1
    have hgrowN := crewLoop_flights_invariant g i post
      (fun fs => ∃ f, fs[i]? = some f ∧ (placeCrew fB b).PIs <+: f.PIs ∧
        (placeCrew fB b).CEs <+: f.CEs)
      (fun x y c hx hs => prefix_step g i i _ _ x y c hx hs) stB2 stn
      ⟨_, hB2, List.prefix_refl _, List.prefix_refl _⟩ hpost
    have hgrowF := flightLoop_flights_invariant g (pre ++ a :: (mid ++ b :: post))
      (fun fs => ∃ f, fs[i]? = some f ∧ (placeCrew fB b).PIs <+: f.PIs ∧
        (placeCrew fB b).CEs <+: f.CEs)
      (fun j x y c hx hs => prefix_step g i j _ _ x y c hx hs) _ _ stn stF hgrowN hl3
    obtain ⟨f, hf, hPF, hCF⟩ := hgrowF
    rw [hfF] at hf
    injection hf with hf
    rw [hf]
    refine ⟨?_, ?_⟩
    · intro hPI
      have haPI : a.Status = "PI" := hrole.trans hPI
      obtain ⟨l2, hl2⟩ := hPB
      obtain ⟨l3, hl3⟩ := hPF
      refine ⟨fA.PIs, l2, l3, ?_⟩
      rw [← hl3]
      have e1 : (placeCrew fB b).PIs = fB.PIs ++ [newCrewMember b] := by
        simp [placeCrew, hPI]
      have e2 : (placeCrew fA a).PIs = fA.PIs ++ [newCrewMember a] := by
        simp [placeCrew, haPI]
      rw [e1, ← hl2, e2]
      simp
    · intro hCE
      have haCE : a.Status = "CE" := hrole.trans hCE
      obtain ⟨l2, hl2⟩ := hCB
      obtain ⟨l3, hl3⟩ := hCF
      refine ⟨fA.CEs, l2, l3, ?_⟩
      rw [← hl3]
      have e1 : (placeCrew fB b).CEs = fB.CEs ++ [newCrewMember b] := by
        simp [placeCrew, hCE]
      have e2 : (placeCrew fA a).CEs = fA.CEs ++ [newCrewMember a] := by
        simp [placeCrew, haCE]
      rw [e1, ← hl2, e2]
      simp
  · -- a PC or FE seat: after the step of `a` it is occupied, and stays so
    intro ha hs
    obtain ⟨fA, hfA, heA⟩ := (eligibleAt_iff stA i a).1 ha
    have hsa : a.Status = "PC" ∨ a.Status = "FE" := by
      rw [hrole]
      exact hs
    have h1 : isSpotOccupied stA2.Flights a.Status fA.Typ i = .ok true := by
      obtain ⟨occ, hocc⟩ := isSpotOccupied_total stA.Flights a.Status fA.Typ i fA hfA
      cases occ with
      | true => exact occupied_step g i a.Status fA.Typ stA stA2 a hocc hstepA
      | false =>
        have hstepA1 := hstepA
        rw [considerCrew_assign g i stA a fA hfA heA hocc] at hstepA1
        unfold assignCrew at hstepA1
        simp only [hfA] at hstepA1
        cases hm : stA.crewHasAFlightThisWeek.mark a.Status (crewName a) with
        | error e => simp [hm] at hstepA1
        | ok w =>
          simp only [hm] at hstepA1
          injection hstepA1 with hstepA1
          subst hstepA1
          exact occupied_after_assign stA.Flights i fA a fA.Typ hfA hsa
    have h2 := crewLoop_flights_invariant g i mid
      (fun fs => isSpotOccupied fs a.Status fA.Typ i = .ok true)
      (fun x y c hx hs => occupied_step g i a.Status fA.Typ x y c hx hs) stA2 stB h1 hmid
    cases hb : assignsAt stB i b with
    | false => rfl
    | true =>
      exfalso
      obtain ⟨fB, hfB, heB, hoB⟩ := (assignsAt_iff stB i b).1 hb
      rw [hrole, isSpotOccupied_type _ _ _ fB.Typ, hoB] at h2
      cases h2

/-- C4 on four runs, one for each role. CE, first day of the scenario, second
slot: Ed Two is assigned, Dan One precedes him and was eligible, so Dan One is
assigned and stands before Ed Two in the CE list. PI, day of the eleven PIs,
third slot: the PI of number 3 is assigned, the PI of number 2 precedes it and
was eligible, so it is assigned and stands before it in the PI list. PC, day of
the two PCs, first slot: Alice Smith is eligible and assigned, she is the PC of
the slot in the returned schedule, and Amy Adams, considered after her and
eligible too, is not assigned. FE, day of the two FEs, first slot: the same
with Carl Fox and Cole Ford. -/
theorem priority_stable_witness :
    (assignsAt secondSlotAfterDan 1 ⟨"Ed", "Two", "SPC", "CE", weekAvailability⟩ = true
      ∧ eligibleAt secondSlotStart 1 ⟨"Dan", "One", "SPC", "CE", weekAvailability⟩ = true
      ∧ assignsAt secondSlotStart 1 ⟨"Dan", "One", "SPC", "CE", weekAvailability⟩ = true
      ∧ ∃ f, (scenarioSchedule.take 4)[1]? = some f ∧
          ∃ l1 l2 l3, f.CEs = l1 ++ (⟨"Dan", "One", "SPC", "CE"⟩ : CrewMember)
            :: (l2 ++ (⟨"Ed", "Two", "SPC", "CE"⟩ : CrewMember) :: l3))
    ∧ (assignsAt thirdSlotAfterPilot 2 (pilotRecord 3) = true
      ∧ eligibleAt thirdSlotStart 2 (pilotRecord 2) = true
      ∧ assignsAt thirdSlotStart 2 (pilotRecord 2) = true
      ∧ ∃ f, longDaySchedule[2]? = some f ∧
          ∃ l1 l2 l3, f.PIs = l1 ++ pilotMember 2 :: (l2 ++ pilotMember 3 :: l3))
    ∧ (eligibleAt firstSlotStart 0 ⟨"Alice", "Smith", "CPT", "PC", weekAvailability⟩ = true
      ∧ assignsAt firstSlotStart 0 ⟨"Alice", "Smith", "CPT", "PC", weekAvailability⟩ = true
      ∧ eligibleAt firstSlotAfterAlice 0 ⟨"Amy", "Adams", "CPT", "PC", weekAvailability⟩ = true
      ∧ assignsAt firstSlotAfterAlice 0 ⟨"Amy", "Adams", "CPT", "PC", weekAvailability⟩ = false
      ∧ ∃ f, twoPCSchedule[0]? = some f ∧
          (⟨"Alice", "Smith", "CPT", "PC"⟩ : CrewMember) ∈ roleField "PC" f)
    ∧ (eligibleAt firstSlotStart 0 ⟨"Carl", "Fox", "SGT", "FE", weekAvailability⟩ = true
      ∧ assignsAt firstSlotStart 0 ⟨"Carl", "Fox", "SGT", "FE", weekAvailability⟩ = true
      ∧ eligibleAt firstSlotAfterCarl 0 ⟨"Cole", "Ford", "SGT", "FE", weekAvailability⟩ = true
      ∧ assignsAt firstSlotAfterCarl 0 ⟨"Cole", "Ford", "SGT", "FE", weekAvailability⟩ = false
      ∧ ∃ f, twoFESchedule[0]? = some f ∧
          (⟨"Carl", "Fox", "SGT", "FE"⟩ : CrewMember) ∈ roleField "FE" f) := by
  obtain ⟨f, hf, -, -, hC, -⟩ := priority_stable firstDayGlobals (scenarioCrew.take 3) []
    [⟨"Fay", "Three", "SPC", "CE", weekAvailability⟩]
    ⟨"Dan", "One", "SPC", "CE", weekAvailability⟩ ⟨"Ed", "Two", "SPC", "CE", weekAvailability⟩
    (dayFlights "Jan 01 24" 0) (scenarioSchedule.take 4) 1 secondSlotStart secondSlotStart
    secondSlotAfterDan (by decide) (by decide) (by decide) (by decide) (by decide) (by decide)
  obtain ⟨f1, hf1, -, -, hC1, -⟩ := priority_stable longDayGlobals (elevenPIs.take 2) []
    (elevenPIs.drop 4) (pilotRecord 2) (pilotRecord 3)
    (dayFlights "Jan 01 24" 4) longDaySchedule 2 thirdSlotStart thirdSlotStart
    thirdSlotAfterPilot (by decide) (by decide) (by decide) (by decide) (by decide) (by decide)
  obtain ⟨f2, hf2, hA2, -, -, hD2⟩ := priority_stable twoPCGlobals [] [] []
    ⟨"Alice", "Smith", "CPT", "PC", weekAvailability⟩
    ⟨"Amy", "Adams", "CPT", "PC", weekAvailability⟩
    (dayFlights "Jan 01 24" 0) twoPCSchedule 0 firstSlotStart firstSlotStart
    firstSlotAfterAlice (by decide) (by decide) (by decide) (by decide) (by decide) (by decide)
  obtain ⟨f3, hf3, hA3, -, -, hD3⟩ := priority_stable twoFEGlobals [] [] []
    ⟨"Carl", "Fox", "SGT", "FE", weekAvailability⟩
    ⟨"Cole", "Ford", "SGT", "FE", weekAvailability⟩
    (dayFlights "Jan 01 24" 0) twoFESchedule 0 firstSlotStart firstSlotStart
    firstSlotAfterCarl (by decide) (by decide) (by decide) (by decide) (by decide) (by decide)
  exact ⟨⟨by decide, by decide, (hC (by decide) (by decide)).1, f, hf,
      (hC (by decide) (by decide)).2.2 rfl⟩,
    ⟨by decide, by decide, (hC1 (by decide) (by decide)).1, f1, hf1,
      (hC1 (by decide) (by decide)).2.1 rfl⟩,
    ⟨by decide, by decide, by decide, hD2 (by decide) (Or.inl rfl), f2, hf2, hA2 (by decide)⟩,
    ⟨by decide, by decide, by decide, hD3 (by decide) (Or.inr rfl), f3, hf3, hA3 (by decide)⟩⟩

/-! ### The scenario of one PC: the first day -/

/-- A crew member that is no PC and does not bear the name keeps `BeforePC`,
whether or not the common clear fires: the PC set is empty before and after. -/
theorem beforePC_step (g : Globals) (n : String) (i : Nat)
    (st st1 : AllocState) (crew : CrewAvailability) (hs : crew.Status ≠ "PC")
    (hn : crewName crew ≠ n) (hinv : BeforePC n st) (h : considerCrew g i st crew = .ok st1) :
    BeforePC n st1 := by
  rcases considerCrew_ok g i st st1 crew h with rfl | ⟨flight, w, hf, -, -, hm, rfl⟩
  · exact hinv
  · refine ⟨?_, ?_, ?_, ?_⟩
    · dsimp only
      exact weekComplete_resets g _
    · dsimp only
      show resetSet _ (clearWhenEveryoneFlew g w).PC = some []
      unfold clearWhenEveryoneFlew
      split_ifs
      · exact resetSet_none _
      · rw [mark_other_PC _ _ _ _ hs hm, hinv.week, resetSet_nil]
    · intro f hfm
      rcases mem_set_cases _ _ _ _ hfm with rfl | hfm
      · rw [placeCrew_other_PC _ _ hs]
        exact hinv.free flight (List.getElem?_mem hf)
      · exact hinv.free f hfm
    · dsimp only
      rw [mem_setInsert]
      rintro (hc | hc)
      · exact hinv.unbooked hc
      · exact hn hc.symm

/-- When the dates parse to pairwise different labels, the invariant of the
daily booking rule holds of the state in which the loop over the slots ends. -/
theorem dayLoopInv_final (g : Globals) (s : List CrewAvailability) (ds : List Date)
    (flights : List Flight) (st : AllocState)
    (hparse : g.dates.map parseInputDate = ds.map some)
    (hdistinct : (ds.map formatFullDate).Nodup)
    (hi : initializeFlightSchedules g = .ok flights)
    (hl : flightLoop g s 0 flights.length (initialState flights) = .ok st) :
    DayLoopInv (flights.map Flight.Date) flights.length st := by
  have hflights : flights = ds.flatMap (dateBlock g) := by
    rw [initializeFlightSchedules, initializeLoop_ok g ds g.dates [] hparse] at hi
    injection hi with hi
    rw [← hi, List.nil_append]
  have hL : contiguousLabels (flights.map Flight.Date) := by
    rw [hflights, schedule_labels]
    apply contiguousLabels_blocks
    rw [List.map_map]
    exact hdistinct
  have hfin := flightLoop_invariant g s (DayLoopInv (flights.map Flight.Date))
    (fun i a b ha hp => dayLoopInv_step g s _ hL i a b ha hp) flights.length 0 _ st
    (dayLoopInv_initial flights (fun f hf =>
      slotNames_of_empty f (initialize_empty g flights hi f hf))) hl
  simpa using hfin

/-- C8 as amended: let the dates parse to pairwise different labels, with no
normal flight on any day, let Alice Smith be the only crew record of status PC,
available on the first day, no record before hers bearing her name. Then in
the returned schedule Alice Smith is the PC of the MAINTENANCE slot of the
first day, no other slot of the first day has a PC, a crew member holding one
slot a day at most, and the PI and CE counts of every slot are at most those of
the quota table. -/
theorem scenario_one_pc (g : Globals) (pre post : List CrewAvailability)
    (alice : CrewAvailability) (d0 : Date) (rest : List Date) (fs : List Flight)
    (hparse : g.dates.map parseInputDate = (d0 :: rest).map some)
    (hdistinct : ((d0 :: rest).map formatFullDate).Nodup)
    (hcount : ∀ d ∈ d0 :: rest, numFlights g (formatInputDate d) = 0)
    (hfirst : alice.FirstName = "Alice") (hlast : alice.LastName = "Smith")
    (hpc : alice.Status = "PC")
    (havail : alice.Availabilty.lookup (formatFullDate d0) = some true)
    (honly : ∀ c ∈ pre ++ post, c.Status ≠ "PC")
    (hpre : ∀ c ∈ pre, crewName c ≠ crewName alice)
    (h : calculateFlightSchedules g (pre ++ alice :: post) = .ok fs) :
    (∃ f0, fs[0]? = some f0 ∧ f0.Typ = "MAINTENANCE" ∧ f0.Date = formatFullDate d0 ∧
      f0.PC = some ⟨"Alice", "Smith", alice.Rank, "PC"⟩)
    ∧ (∀ (j : Nat) (f : Flight), 1 ≤ j → fs[j]? = some f → f.Date = formatFullDate d0 →
        f.PC = none)
    ∧ (∀ (i : Nat) (f : Flight), fs[i]? = some f →
        (f.Typ = "MAINTENANCE" → f.PIs.length ≤ 1 ∧ f.CEs.length = 0) ∧
        (f.Typ = "NORMAL" → f.PIs.length ≤ 1 ∧ f.CEs.length ≤ 1) ∧
        (f.Typ = "TRAINING" → i % 2 = 0 → f.PIs.length ≤ 2 ∧ f.CEs.length ≤ 1) ∧
        (f.Typ = "TRAINING" → i % 2 = 1 → f.PIs.length ≤ 1 ∧ f.CEs.length ≤ 3)) := by
  have hquota := schedule_invariant g (pre ++ alice :: post) allWithinQuota
    (fun i st st1 crew _ hq hc => allWithinQuota_step g i st st1 crew hq hc)
    (fun flights hi => allWithinQuota_initial g flights hi) fs h
  have hfrom := allFromCrew g _ fs h
  obtain ⟨flights, stF, hi, hl, rfl⟩ := calculate_ok g _ fs h
  have hday := dayLoopInv_final g _ (d0 :: rest) flights stF hparse hdistinct hi hl
  -- the first generated slot
  have hblock : 0 < (dateBlock g d0).length := by
    rw [dateBlock, dayFlights_length, hcount d0 (List.mem_cons_self _ _)]
    decide
  obtain ⟨flights1, hi1, hfl0⟩ := initialize_getElem g (d0 :: rest) hparse 0 d0 (by simp) 0 hblock
  rw [hi] at hi1
  injection hi1 with hi1
  subst hi1
  have hoff : dayOffset g (d0 :: rest) 0 + 0 = 0 := by simp [dayOffset]
  rw [hoff] at hfl0
  have hN : 0 < flights.length := by
    by_contra hc
    rw [List.getElem?_eq_none (by omega)] at hfl0
    cases hfl0
  -- the first slot, then the other slots
  have hl0 := hl
  rw [show flights.length = 1 + (flights.length - 1) by omega] at hl
  obtain ⟨st1, hp, hl2⟩ := flightLoop_add_ok g _ 1 _ 0 _ stF hl
  have hproc : processFlight g (pre ++ alice :: post) 0 (initialState flights) = .ok st1 := by
    simp only [flightLoop] at hp
    cases hpp : processFlight g (pre ++ alice :: post) 0 (initialState flights) with
    | error e => simp [hpp] at hp
    | ok x => simpa [hpp] using hp
  obtain ⟨flight, hflight, hcrew⟩ := processFlight_ok g _ 0 _ st1 hproc
  have hbefore : BeforePC (crewName alice) (resetDay (initialState flights) flight) := by
    refine ⟨?_, ?_, ?_, ?_⟩
    · rw [resetDay_week]
      exact weekComplete_initial
    · rw [resetDay_week]
      rfl
    · rw [resetDay_flights]
      intro f hf
      exact (initialize_empty g flights hi f hf).1
    · rw [resetDay_crewHasFlight]
      split_ifs <;> simp [initialState]
  obtain ⟨stA, hA, hrestA⟩ := crewLoop_append_ok g 0 pre _ _ st1 hcrew
  have hbeforeA : BeforePC (crewName alice) stA :=
    crewLoop_invariant g 0 (BeforePC (crewName alice)) pre
      (fun a b c hc ha hs => beforePC_step g _ 0 a b c
        (honly c (List.mem_append_left _ hc)) (hpre c hc) ha hs) _ stA hbefore hA
  obtain ⟨stA1, hstepA, hpost⟩ := crewLoop_cons_ok g 0 alice post stA st1 hrestA
  have hshapeA := crewLoop_shape g 0 pre _ stA hA
  rw [resetDay_flights] at hshapeA
  obtain ⟨f0, hf0, -, hf0d, -⟩ := getElem?_of_shape stA.Flights flights 0 _ hshapeA hfl0
  -- Alice Smith takes the PC seat of the first slot and keeps it
  have hassA : assignsAt stA 0 alice = true := by
    rw [assignsAt_iff]
    refine ⟨f0, hf0, ?_, ?_⟩
    · rw [eligible_iff]
      refine ⟨by rw [hf0d]; exact havail, hbeforeA.unbooked, ?_⟩
      simp [WeekMap.get, hpc, hbeforeA.week]
    · simp [isSpotOccupied, hf0, hpc, hbeforeA.free f0 (List.getElem?_mem hf0)]
  have h1 := seat_taken g 0 stA stA1 alice hassA hstepA
  have h2 := crewLoop_flights_invariant g 0 post
    (fun fs => ∃ f, fs[0]? = some f ∧ newCrewMember alice ∈ roleField alice.Status f)
    (fun x y c hx hs => seat_step g 0 0 alice x y c hx hs) stA1 st1 h1 hpost
  have h3 := flightLoop_flights_invariant g (pre ++ alice :: post)
    (fun fs => ∃ f, fs[0]? = some f ∧ newCrewMember alice ∈ roleField alice.Status f)
    (fun j x y c hx hs => seat_step g 0 j alice x y c hx hs) _ _ st1 stF h2 hl2
  obtain ⟨fF, hfF, hmem⟩ := h3
  have hfPC : fF.PC = some (newCrewMember alice) := by
    rw [hpc] at hmem
    simp only [roleField, if_true] at hmem
    cases hc : fF.PC with
    | none => simp [hc] at hmem
    | some m =>
      simp [hc] at hmem
      rw [hmem]
  have hshapeF := flightLoop_shape g _ _ _ _ stF hl0
  obtain ⟨f1, hf1, hty, hdt, -⟩ := getElem?_of_shape stF.Flights flights 0 _ hshapeF hfl0
  rw [hfF] at hf1
  injection hf1 with hf1
  subst hf1
  refine ⟨?_, ?_, ?_⟩
  · refine ⟨fF, hfF, hty, hdt, ?_⟩
    rw [hfPC]
    simp [newCrewMember, hfirst, hlast, hpc]
  · intro j f hj hf hdate
    cases hc : f.PC with
    | none => rfl
    | some m =>
      exfalso
      obtain ⟨c, hcm, hmc, hcs, -⟩ := (hfrom f (List.getElem?_mem hf)).1 m hc
      have hca : c = alice := by
        rcases List.mem_append.1 hcm with hc1 | hc1
        · exact absurd hcs (honly c (List.mem_append_left _ hc1))
        · rcases List.mem_cons.1 hc1 with rfl | hc2
          · rfl
          · exact absurd hcs (honly c (List.mem_append_right _ hc2))
      subst hca
      have hn0 : crewName c ∈ slotNames fF := by
        simp [slotNames, occupants, hfPC, memberName_newCrewMember]
      have hnj : crewName c ∈ slotNames f := by
        simp [slotNames, occupants, hc, hmc, memberName_newCrewMember]
      exact hday.disjoint 0 j fF f (by omega) hfF hf (by rw [hdate]; exact hdt)
        (crewName c) hn0 hnj
  · intro i f hf
    exact (hquota i f hf).2.2

/-- C8 as amended, on the scenario inputs. -/
theorem scenario_one_pc_witness :
    calculateFlightSchedules scenarioGlobals scenarioCrew = .ok scenarioSchedule
    ∧ (∃ f0, scenarioSchedule[0]? = some f0 ∧ f0.Typ = "MAINTENANCE" ∧ f0.Date = "Jan 01 24" ∧
        f0.PC = some ⟨"Alice", "Smith", "CPT", "PC"⟩)
    ∧ (∀ (j : Nat) (f : Flight), 1 ≤ j → scenarioSchedule[j]? = some f →
        f.Date = "Jan 01 24" → f.PC = none) :=
  have h := scenario_one_pc scenarioGlobals [] (scenarioCrew.drop 1)
    ⟨"Alice", "Smith", "CPT", "PC", weekAvailability⟩ ⟨1, 1, 2024⟩ (scenarioDates.drop 1)
    scenarioSchedule (by decide) (by decide) (by decide) rfl rfl rfl (by decide) (by decide)
    (by decide) (by decide)
  ⟨by decide, h.1, h.2.1⟩

/-! ### The clearing test against its comment -/

/-- C10: the test that clears the rotation sets, `len(fullCrew) ==
len(crewHasAFlightThisWeek)`, against its comment `Clear when we get at least
one flight for everyone this week`. The test compares the size of the full
roster with the number of keys of the map, which is four. For the crew of four
with a full roster of four, the first assignment of the run, Alice Smith as PC
of the first slot, records one name of four, and the four sets are emptied; the
returned schedule then has Alice Smith as PC on both days although Dan One
holds no slot. On the scenario, with a full roster of six, the write of Dan One
brings the recorded names to four and nothing is cleared, and after the second
slot all six crew members have flown and the PC set still holds Alice Smith, so
that the MAINTENANCE slot of the second day has no PC. -/
theorem clear_before_everyone_flew :
    (fourCrewGlobals.fullCrew.length = 4
      ∧ initializeFlightSchedules fourCrewGlobals = .ok fourCrewSlots
      ∧ slotStart fourCrewGlobals fourCrew fourCrewSlots 0
          = .ok { Flights := fourCrewSlots, crewHasFlight := [],
                  currentFlightDate := "Jan 01 24", crewHasAFlightThisWeek := WeekMap.initial }
      ∧ WeekMap.initial.mark "PC" "Alice Smith"
          = .ok { PI := some [], PC := some ["Alice Smith"], FE := some [], CE := some [] }
      ∧ clearWhenEveryoneFlew fourCrewGlobals
          { PI := some [], PC := some ["Alice Smith"], FE := some [], CE := some [] }
          = WeekMap.noKeys
      ∧ considerCrew fourCrewGlobals 0
          { Flights := fourCrewSlots, crewHasFlight := [],
            currentFlightDate := "Jan 01 24", crewHasAFlightThisWeek := WeekMap.initial }
          ⟨"Alice", "Smith", "CPT", "PC", weekAvailability⟩
          = .ok { Flights := fourCrewSlots.set 0
                    { Typ := "MAINTENANCE", Date := "Jan 01 24", Time := "0900",
                      PC := some ⟨"Alice", "Smith", "CPT", "PC"⟩, PIs := [], FE := none,
                      CEs := [] },
                  crewHasFlight := ["Alice Smith"], currentFlightDate := "Jan 01 24",
                  crewHasAFlightThisWeek := WeekMap.initial }
      ∧ calculateFlightSchedules fourCrewGlobals fourCrew = .ok fourCrewSchedule
      ∧ (∃ f0 f4, fourCrewSchedule[0]? = some f0 ∧ fourCrewSchedule[4]? = some f4
          ∧ f0.Date = "Jan 01 24" ∧ f4.Date = "Jan 02 24"
          ∧ f0.PC = some ⟨"Alice", "Smith", "CPT", "PC"⟩
          ∧ f4.PC = some ⟨"Alice", "Smith", "CPT", "PC"⟩)
      ∧ ∀ f ∈ fourCrewSchedule, "Dan One" ∉ slotNames f)
    ∧ (scenarioGlobals.fullCrew.length = 6
      ∧ flightLoop scenarioGlobals scenarioCrew 0 1
          (initialState (scenarioDates.flatMap (dateBlock scenarioGlobals)))
          = .ok { Flights := scenarioSchedule.take 1
                    ++ (scenarioDates.flatMap (dateBlock scenarioGlobals)).drop 1,
                  crewHasFlight := ["Alice Smith", "Bob Jones", "Carl Fox"],
                  currentFlightDate := "Jan 01 24",
                  crewHasAFlightThisWeek :=
                    { PI := some ["Bob Jones"], PC := some ["Alice Smith"],
                      FE := some ["Carl Fox"], CE := some [] } }
      ∧ weekTotal { PI := some ["Bob Jones"], PC := some ["Alice Smith"],
                    FE := some ["Carl Fox"], CE := some ["Dan One"] } = 4
      ∧ clearWhenEveryoneFlew scenarioGlobals
          { PI := some ["Bob Jones"], PC := some ["Alice Smith"], FE := some ["Carl Fox"],
            CE := some ["Dan One"] }
          = { PI := some ["Bob Jones"], PC := some ["Alice Smith"], FE := some ["Carl Fox"],
              CE := some ["Dan One"] }
      ∧ flightLoop scenarioGlobals scenarioCrew 0 2
          (initialState (scenarioDates.flatMap (dateBlock scenarioGlobals)))
          = .ok { Flights := scenarioSchedule.take 2
                    ++ (scenarioDates.flatMap (dateBlock scenarioGlobals)).drop 2,
                  crewHasFlight := scenarioGlobals.fullCrew,
                  currentFlightDate := "Jan 01 24",
                  crewHasAFlightThisWeek :=
                    { PI := some ["Bob Jones"], PC := some ["Alice Smith"],
                      FE := some ["Carl Fox"], CE := some [] } }
      ∧ calculateFlightSchedules scenarioGlobals scenarioCrew = .ok scenarioSchedule
      ∧ ∃ f, scenarioSchedule[4]? = some f ∧ f.Typ = "MAINTENANCE" ∧ f.Date = "Jan 02 24"
          ∧ f.PC = none) :=
  ⟨⟨by decide, by decide, by decide, by decide, by decide, by decide, by decide,
      ⟨_, _, rfl, rfl, by decide, by decide, by decide, by decide⟩, by decide⟩,
    ⟨by decide, by decide, by decide, by decide, by decide, by decide,
      ⟨_, rfl, by decide, by decide, by decide⟩⟩⟩

end FlyScheduler

